import Mathlib

/-!
Verification development for the `linkedin_Job` repository (Python scraping
scripts).  Python strings are modelled as `List Char`; the regex patterns that
the scripts use are compiled by hand into deterministic scanners (each pattern
only uses literals and greedy negated character classes followed by the
excluded literal, so matching is backtracking-free); file I/O is modelled as
explicit state.  All definitions are executable.
-/

set_option maxRecDepth 100000

/-- Python strings are modelled as lists of characters. -/
abbrev Str := List Char

/-- Shorthand turning a Lean string literal into the model type. -/
def strOf (s : String) : Str := s.data

/-! ## Python string primitives -/

/-- Python substring test `needle in s` (for `s` a `str`). -/
def containsSub (needle : Str) : Str → Bool
  | [] => needle.isEmpty
  | c :: cs => needle.isPrefixOf (c :: cs) || containsSub needle cs

/-- Python `str.lower()`, restricted to ASCII case folding (all characters the
scripts compare case-insensitively are ASCII). -/
def lowerStr (s : Str) : Str := s.map Char.toLower

/-- ASCII whitespace, the character class of Python's `str.strip()` and of the
regex class `\s` on the ASCII range. -/
def pyIsSpace (c : Char) : Bool :=
  c = ' ' || c = Char.ofNat 9 || c = Char.ofNat 10 || c = Char.ofNat 13 ||
    c = Char.ofNat 11 || c = Char.ofNat 12

/-- Python `str.strip()` with no argument: drop ASCII whitespace on both ends. -/
def stripWs (s : Str) : Str :=
  ((s.dropWhile pyIsSpace).reverse.dropWhile pyIsSpace).reverse

/-- Python `str.strip(chars)` for a single stripped character: drop every
occurrence of `c` from both ends. -/
def stripChar (c : Char) (s : Str) : Str :=
  ((s.dropWhile (fun x => x = c)).reverse.dropWhile (fun x => x = c)).reverse

/-- Python `str.replace(old, new)` (leftmost, non-overlapping), fuelled by the
length of the string.  The scripts only call it with a non-empty `old`; for
`old = []` the scan below leaves the string unchanged, which agrees with
Python exactly when `old = new` (the only way the scripts could reach it). -/
def pyReplaceF (old new : Str) : Nat → Str → Str
  | _, [] => []
  | 0, s => s
  | fuel + 1, c :: cs =>
    if old.isPrefixOf (c :: cs) && !old.isEmpty then
      new ++ pyReplaceF old new fuel ((c :: cs).drop old.length)
    else
      c :: pyReplaceF old new fuel cs

/-- Python `s.replace(old, new)`. -/
def pyReplace (old new s : Str) : Str := pyReplaceF old new s.length s

/-- Helper for `str.split`: the text before the first occurrence of `sep`
and the text after it, or `none` when `sep` does not occur. -/
def splitFirst (sep : Str) : Str → Option (Str × Str)
  | [] => none
  | c :: cs =>
    if sep.isPrefixOf (c :: cs) && !sep.isEmpty then
      some ([], (c :: cs).drop sep.length)
    else
      match splitFirst sep cs with
      | some (a, b) => some (c :: a, b)
      | none => none

/-- Python `str.split(sep)` for a non-empty separator, fuelled by the length
of the string (every split strictly shrinks the remainder, so the fuel is
sufficient). -/
def pySplitF (sep : Str) : Nat → Str → List Str
  | 0, s => [s]
  | fuel + 1, s =>
    match splitFirst sep s with
    | none => [s]
    | some (a, b) => a :: pySplitF sep fuel b

/-- Python `s.split(sep)` (non-empty `sep`; always returns a non-empty list). -/
def pySplit (sep s : Str) : List Str := pySplitF sep s.length s

/-- Python `s.find(sub)`: index of the first occurrence, `none` for `-1`. -/
def pyFindSubAux (sub : Str) : Str → Option Nat
  | [] => if sub.isEmpty then some 0 else none
  | c :: cs =>
    if sub.isPrefixOf (c :: cs) then some 0
    else (pyFindSubAux sub cs).map Nat.succ

/-- Python `s.find(sub)` as an `Option`. -/
def pyFindSub (s sub : Str) : Option Nat := pyFindSubAux sub s

/-- Python `s.find(ch, start)`: index of the first occurrence of the character
`ch` at position `start` or later, `none` for `-1`. -/
def pyFindCharFrom (s : Str) (ch : Char) (start : Nat) : Option Nat :=
  ((s.drop start).findIdx? (fun x => x = ch)).map (fun i => start + i)

/-! ## Hand-compiled regex pieces shared by the scanners

`expectLit` consumes a literal, `takeUntil`/`takeClass` consume a greedy
negated character class together with the excluded character that follows it
(`[^x]+x` — since the class cannot match `x`, greedy matching is equivalent to
"everything up to the first `x`", with no backtracking). -/

/-- Consume the literal `lit` at the front of `s`. -/
def expectLit (lit : Str) (s : Str) : Option Str :=
  if lit.isPrefixOf s then some (s.drop lit.length) else none

/-- Everything before the first occurrence of `b`, and the rest after that
occurrence; `none` when `b` never occurs (the run may be empty). -/
def takeUntil (b : Char) : Str → Option (Str × Str)
  | [] => none
  | c :: cs =>
    if c = b then some ([], cs)
    else
      match takeUntil b cs with
      | some (run, r) => some (c :: run, r)
      | none => none

/-- Regex fragment `[^b]+b`: a non-empty greedy run of characters other than
`b`, then `b` itself (consumed). -/
def takeClass (b : Char) (s : Str) : Option (Str × Str) :=
  match takeUntil b s with
  | some (run, r) => if run.isEmpty then none else some (run, r)
  | none => none

/-! ## The markdown profile extractor
(`src/google_search.py::extract_linkedin_profiles`, lines 66-127, and the
near-identical variant `src/working.py::extract_linkedin_profiles`,
lines 15-59). -/

/-- One match of the profile pattern
`\[([^\]]+)\]\(https://www\.bing\.com/<(https:/[^>]+)>\)\n## \[([^\]]+)\]`:
`g1` is the link text, `g2` the inner URL (starting with `https:/`), `g3` the
bracketed title of the `##` heading. -/
structure ProfMatch where
  g1 : Str
  g2 : Str
  g3 : Str
deriving Repr, DecidableEq

/-- Model of `match.group(0)`: the full text the pattern consumed. -/
def ProfMatch.g0 (m : ProfMatch) : Str :=
  '[' :: m.g1 ++ ']' :: strOf "(https://www.bing.com/<" ++ m.g2 ++
    '>' :: strOf ")\n## [" ++ m.g3 ++ [']']

/-- Attempt to match the profile pattern at the start of `s`; on success
return the groups and the remainder of the string after the match. -/
def matchProfileAt (s : Str) : Option (ProfMatch × Str) := do
  let s1 ← expectLit ['['] s
  let (g1, s2) ← takeClass ']' s1
  let s3 ← expectLit (strOf "(https://www.bing.com/<") s2
  let s4 ← expectLit (strOf "https:/") s3
  let (t2, s5) ← takeClass '>' s4
  let s6 ← expectLit (strOf ")\n## [") s5
  let (g3, s7) ← takeClass ']' s6
  pure (ProfMatch.mk g1 (strOf "https:/" ++ t2) g3, s7)

/-- Model of `re.finditer` for the profile pattern: scan left to right, emit each
leftmost match and continue after it (non-overlapping).  Fuelled; the callers
pass the length of the string, which suffices because every step consumes at
least one character. -/
def findIterProf : Nat → Str → List ProfMatch
  | 0, _ => []
  | _ + 1, [] => []
  | fuel + 1, c :: cs =>
    match matchProfileAt (c :: cs) with
    | some (m, rest) => m :: findIterProf fuel rest
    | none => findIterProf fuel cs

/-- The literal `connections` of the pattern `(\d+)\+?\s*connections`;
`ci` selects `re.IGNORECASE` (used by `google_search.py`; `working.py`
matches case-sensitively). -/
def connLitHit (ci : Bool) (r : Str) : Bool :=
  if ci then (strOf "connections").isPrefixOf (lowerStr (r.take (strOf "connections").length))
  else (strOf "connections").isPrefixOf r

/-- Continuation of `matchConnAt`: after the digit run, the optional `'+'`,
then `\s*`, then the literal `connections` (case-insensitively when `ci`). -/
def connTailHit (ci : Bool) (rest : Str) : Bool :=
  let r1 :=
    match rest with
    | '+' :: t => t
    | other => other
  connLitHit ci (r1.dropWhile pyIsSpace)

/-- Attempt the whole connections pattern `(\d+)\+?\s*connections` at the
start of `s`, returning group 1 (the digit run).  `\d+` is greedy but can
never give characters back to `\+?\s*connections` (none of those can match
a digit), so maximal-munch is exact. -/
def matchConnAt (ci : Bool) (s : Str) : Option Str :=
  if !(s.takeWhile Char.isDigit).isEmpty && connTailHit ci (s.dropWhile Char.isDigit) then
    some (s.takeWhile Char.isDigit)
  else none

/-- Model of `re.search` for the connections pattern: leftmost match of the digit-run
group. -/
def connSearch (ci : Bool) : Str → Option Str
  | [] => none
  | c :: cs =>
    match matchConnAt ci (c :: cs) with
    | some d => some d
    | none => connSearch ci cs

/-- The `LinkedInProfile` dataclass of `src/google_search.py` (lines 22-29). -/
structure LinkedInProfile where
  name : Str
  designation : Str
  url : Str
  description : Str
  connections : Str
  company : Str
deriving Repr, DecidableEq

/-- The description scraped for a match: the text between the end of the
first occurrence of `match.group(0)` in the document and the next `'['`,
stripped — or `""` when no later `'['` exists (lines 97-102 of
`google_search.py`; identical in `working.py`). -/
def descriptionFor (markdown : Str) (m : ProfMatch) : Str :=
  match pyFindSub markdown m.g0 with
  | none => []  -- unreachable: the matched text always occurs in the document
  | some i =>
    let dstart := i + m.g0.length
    match pyFindCharFrom markdown '[' dstart with
    | none => []
    | some j => stripWs ((markdown.drop dstart).take (j - dstart))

/-- The gating test `"connections" in description.lower()` of line 106 of
`google_search.py` (`working.py` tests case-sensitively). -/
def connPresent (ci : Bool) (desc : Str) : Bool :=
  if ci then containsSub (strOf "connections") (lowerStr desc)
  else containsSub (strOf "connections") desc

/-- The connections field: `"Not specified"` unless `"connections"` occurs in
the (lowered, when `ci`) description and the regex finds a digit run, in which
case `f"{digits}+"` (lines 104-109 of `google_search.py`; `working.py` is the
`ci := false` case). -/
def connectionsFor (ci : Bool) (desc : Str) : Str :=
  if connPresent ci desc then
    match connSearch ci desc with
    | some d => d ++ ['+']
    | none => strOf "Not specified"
  else strOf "Not specified"

/-- Build one profile record from a match, exactly as lines 79-118 of
`src/google_search.py`: URL via the (identity) `replace`, name/designation
from the title split on `" - "` with `'*'` stripped, company from the
designation split on `" at "` (guarded case-insensitively) or `" @ "`. -/
def mkProfileG (markdown : Str) (m : ProfMatch) : LinkedInProfile :=
  let url := pyReplace (strOf "https://") (strOf "https://") m.g2
  let title_parts := pySplit (strOf " - ") m.g3
  let name := stripChar '*' title_parts.headI
  let dc :=
    if h : 1 < title_parts.length then
      let designation := stripChar '*' (title_parts.get ⟨1, h⟩)
      let company :=
        if containsSub (strOf " at ") (lowerStr designation) then
          stripWs ((pySplit (strOf " at ") designation).getLast!)
        else if containsSub (strOf " @ ") designation then
          stripWs ((pySplit (strOf " @ ") designation).getLast!)
        else strOf "Not specified"
      (designation, company)
    else (strOf "HR Professional", strOf "Not specified")
  let desc := descriptionFor markdown m
  LinkedInProfile.mk name dc.1 url desc (connectionsFor true desc) dc.2

/-- Model of `extract_linkedin_profiles` of `src/google_search.py`: every pattern match
whose group 2 contains `linkedin.com/in/` yields one record; the others are
skipped by the `continue` (the unused `search_query` argument only feeds
logging and is omitted). -/
def extract_linkedin_profiles (markdown : Str) : List LinkedInProfile :=
  (findIterProf markdown.length markdown).filterMap fun m =>
    if containsSub (strOf "linkedin.com/in/") m.g2 then
      some (mkProfileG markdown m)
    else none

/-- The `LinkedInProfile` dataclass of `src/working.py` (no company field). -/
structure WProfile where
  name : Str
  designation : Str
  url : Str
  description : Str
  connections : Str
deriving Repr, DecidableEq

/-- Build one record as lines 26-56 of `src/working.py` (default designation
`'HR at Amazon'`, case-sensitive connections matching, no company). -/
def mkProfileW (markdown : Str) (m : ProfMatch) : WProfile :=
  let url := pyReplace (strOf "https://") (strOf "https://") m.g2
  let title_parts := pySplit (strOf " - ") m.g3
  let name := stripChar '*' title_parts.headI
  let designation :=
    if h : 1 < title_parts.length then stripChar '*' (title_parts.get ⟨1, h⟩)
    else strOf "HR at Amazon"
  let desc := descriptionFor markdown m
  WProfile.mk name designation url desc (connectionsFor false desc)

/-- Model of `extract_linkedin_profiles` of `src/working.py`. -/
def extract_linkedin_profiles_w (markdown : Str) : List WProfile :=
  (findIterProf markdown.length markdown).filterMap fun m =>
    if containsSub (strOf "linkedin.com/in/") m.g2 then
      some (mkProfileW markdown m)
    else none

/-! ## A ghost count of dropped matches (claim C9)

The extractor silently `continue`s over matches whose URL group carries no
`linkedin.com/in/` identity key; the scripts keep no counter of these drops,
so the count below exists only in the model. -/

/-- Number of pattern matches dropped by the `continue` of
`google_search.py` line 76-77 (no `linkedin.com/in/` identity key). -/
def countSkippedProfiles (markdown : Str) : Nat :=
  ((findIterProf markdown.length markdown).filter fun m =>
    !containsSub (strOf "linkedin.com/in/") m.g2).length

/-! ## The cookie file write (claims C6 and C7)

`save_cookies` (`src/linkedin_login.py` lines 49-57, identically
`src/linkedin_jobs.py` lines 42-50) runs `open(self.cookies_file, 'w')` —
which truncates the file in place — and then `json.dump(cookies, f)`.  The
file cell is modelled as `Option Str` (`none` = absent) and the save as the
list of its two atomic filesystem effects, so that an interruption between
them is expressible. -/

/-- The two filesystem effects of `save_cookies`: truncation by `open(..., 'w')`,
then the write of the serialised text by `json.dump`. -/
def saveSteps (content : Str) : List (Option Str → Option Str) :=
  [fun _ => some [], fun _ => some content]

/-- Run a list of filesystem effects over the cookie-file cell. -/
def runSteps (steps : List (Option Str → Option Str)) (fs : Option Str) : Option Str :=
  steps.foldl (fun st f => f st) fs

/-- The cookie-file cell after a save interrupted after its first `k` effects. -/
def interruptedSave (content : Str) (k : Nat) (fs : Option Str) : Option Str :=
  runSteps ((saveSteps content).take k) fs

/-! ## Derived-field characterisations used to state claims C8 and C10 -/

/-- The company rule of lines 89-95 of `src/google_search.py`, stated as a
function of the designation alone: the guard lowercases the designation
before the substring test, but the split is case-sensitive — so a
designation containing `" at "` only case-insensitively falls through to a
split with no separator hit, whose last piece is the whole designation. -/
def companyOfDesignation (d : Str) : Str :=
  if containsSub (strOf " at ") (lowerStr d) then
    stripWs ((pySplit (strOf " at ") d).getLast!)
  else if containsSub (strOf " @ ") d then
    stripWs ((pySplit (strOf " @ ") d).getLast!)
  else strOf "Not specified"

/-- Shape invariant of the connections field: the default, or a non-empty
digit string with a single appended `'+'`. -/
def connInv (s : Str) : Prop :=
  s = strOf "Not specified" ∨
    ∃ d : Str, d ≠ [] ∧ (∀ c ∈ d, c.isDigit = true) ∧ s = d ++ ['+']

/-! ## The batch orchestrator
(`src/google_search.py::crawl_parallel`, lines 129-225).

The browser is an oracle `Str → Except Str CrawlResult`: `Except.error e`
models `crawler.arun` raising (which `asyncio.gather(*tasks,
return_exceptions=True)` hands back as an exception object), `Except.ok r`
a normal crawl result.  The per-item handling of lines 187-213 either
produces one disposition per item or raises: the success branch re-parses
the search query from the URL with `re.search(r'q=hr\+([^+]+)\+linkedin',
url).group(1)` (line 194), and when that pattern is absent `re.search`
returns `None`, `.group` raises `AttributeError`, and nothing catches it —
modelled by `Except.error` propagating out of the whole batch. -/

/-- A crawl result as the handling loop sees it. -/
structure CrawlResult where
  success : Bool
  markdown : Str
deriving Repr, DecidableEq

/-- The three per-item dispositions of the `zip(batch, results)` loop:
an exception from the crawl, a successful crawl with extracted profiles,
or an unsuccessful crawl (`Failed to crawl`). -/
inductive Outcome where
  | errored (msg : Str)
  | success (profiles : List LinkedInProfile)
  | failed
deriving Repr, DecidableEq

/-- Match `q=hr\+([^+]+)\+linkedin` at the start of `s` (group 1).  The
greedy `[^+]+` cannot contain `'+'` and must be followed by `+linkedin`,
so matching is deterministic. -/
def matchQueryAt (s : Str) : Option Str := do
  let s1 ← expectLit (strOf "q=hr+") s
  let (g, s2) ← takeClass '+' s1
  if (strOf "linkedin").isPrefixOf s2 then pure g else none

/-- Model of `re.search(r'q=hr\+([^+]+)\+linkedin', url)` of line 194: leftmost
match of group 1, `none` when the pattern is absent (in which case the
source's `.group(1)` raises). -/
def searchQuery : Str → Option Str
  | [] => none
  | c :: cs =>
    match matchQueryAt (c :: cs) with
    | some g => some g
    | none => searchQuery cs

/-- The `urls[i:i + max_concurrent]` windowing of lines 167-168, fuelled by the
list length (each window consumes at least one element when `c ≥ 1`). -/
def chunksF {α : Type} (c : Nat) : Nat → List α → List (List α)
  | 0, _ => []
  | _ + 1, [] => []
  | fuel + 1, x :: xs => (x :: xs.take (c - 1)) :: chunksF c fuel (xs.drop (c - 1))

/-- The consecutive windows `urls[0:c], urls[c:2c], ...` of the batch loop.
Python's `range(0, n, 0)` raises `ValueError`, so `c = 0` never runs a
window; it is modelled as producing none. -/
def chunks {α : Type} (c : Nat) (l : List α) : List (List α) :=
  if c = 0 then [] else chunksF c l.length l

/-- Whether the oracle reports a successful crawl for `u`
(`result.success` on line 191; exceptions are not successes). -/
def successfulCrawl (oracle : Str → Except Str CrawlResult) (u : Str) : Bool :=
  match oracle u with
  | Except.ok r => r.success
  | Except.error _ => false

/-- One iteration of the `for url, result in zip(batch, results)` loop
(lines 187-213): exception → logged error disposition; success → search-query
re-parse (raising when it fails) then extraction; otherwise the failure
disposition. -/
def handleItem (oracle : Str → Except Str CrawlResult) (url : Str) : Except Str Outcome :=
  match oracle url with
  | Except.error e => Except.ok (Outcome.errored e)
  | Except.ok r =>
    if r.success then
      match searchQuery url with
      | none => Except.error (strOf "AttributeError")
      | some _ => Except.ok (Outcome.success (extract_linkedin_profiles r.markdown))
    else Except.ok Outcome.failed

/-- Handle one window's items in order; an uncaught exception abandons the
remaining items of the window. -/
def handleWindow (oracle : Str → Except Str CrawlResult) : List Str → Except Str (List Outcome)
  | [] => Except.ok []
  | u :: us =>
    match handleItem oracle u with
    | Except.error e => Except.error e
    | Except.ok o =>
      match handleWindow oracle us with
      | Except.error e => Except.error e
      | Except.ok os => Except.ok (o :: os)

/-- Process the windows in order; an uncaught exception in any window aborts
the remaining windows. -/
def crawl_windows (oracle : Str → Except Str CrawlResult) :
    List (List Str) → Except Str (List (List Outcome))
  | [] => Except.ok []
  | w :: ws =>
    match handleWindow oracle w with
    | Except.error e => Except.error e
    | Except.ok outs =>
      match crawl_windows oracle ws with
      | Except.error e => Except.error e
      | Except.ok rest => Except.ok (outs :: rest)

/-- Model of `crawl_parallel(urls, max_concurrent)`: window the targets and process
window after window; an uncaught exception aborts the whole batch (the
source's `try` has only a `finally`, no `except`). -/
def crawl_parallel (oracle : Str → Except Str CrawlResult) (urls : List Str) (mc : Nat) :
    Except Str (List (List Outcome)) :=
  crawl_windows oracle (chunks mc urls)

/-- An oracle whose every crawl succeeds (empty markdown): enough to reach
the unguarded search-query parse on a URL without the `q=hr+...+linkedin`
pattern. -/
def oracleAlwaysOk : Str → Except Str CrawlResult :=
  fun _ => Except.ok (CrawlResult.mk true [])

/-- An oracle raising a timeout for one specific URL and failing (without
raising) every other crawl. -/
def oracleOneTimeout : Str → Except Str CrawlResult := fun u =>
  if u = strOf "https://www.bing.com/search?q=hr+amazon+linkedin" then
    Except.error (strOf "TimeoutError")
  else Except.ok (CrawlResult.mk false [])

/-- An oracle whose every crawl raises. -/
def oracleAllError : Str → Except Str CrawlResult :=
  fun _ => Except.error (strOf "ConnectionError")

/-- The per-item disposition when no uncaught exception interferes. -/
def outcomeOf (oracle : Str → Except Str CrawlResult) (url : Str) : Outcome :=
  match oracle url with
  | Except.error e => Outcome.errored e
  | Except.ok r =>
    if r.success then Outcome.success (extract_linkedin_profiles r.markdown)
    else Outcome.failed

/-! ## The deduplicator
(`src/linkedin_login.py::scrape_profiles`, lines 279-288). -/

/-- Key normalisation of lines 280-281: everything from the first `'?'`
onward is stripped. -/
def normalizeKey (url : Str) : Str :=
  if containsSub ['?'] url then (pySplit ['?'] url).headI else url

/-- Lines 279-288 as a single step: normalise, test membership in
`processed_urls`, record when new.  Returns (is the key new, updated set);
the set is modelled as a list of recorded keys. -/
def is_new (processed : List Str) (url : Str) : Bool × List Str :=
  let k := normalizeKey url
  if processed.contains k then (false, processed) else (true, k :: processed)

/-- The recorded-key state after a further sequence of `is_new` calls. -/
def runCalls (calls : List Str) (processed : List Str) : List Str :=
  calls.foldl (fun st u => (is_new st u).2) processed

/-! ## The incremental loader
(`src/linkedin_login.py::scroll_page`, lines 68-96, and the identical loop
without humanisation in `src/linkedin_jobs.py::scroll_page`, lines 61-73).

The page stub is a function `measure : Nat → Nat` giving the value of
`document.body.scrollHeight` at its `t`-th evaluation (`t = 0` is the read
before the loop).  The loop keeps no iteration counter and no cap; `fuel`
is a property of the model only, and `none` means the loop is still running
after `fuel` iterations. -/

/-- The `while True` body: scroll to bottom, measure, break on equality with
the previous measurement, else continue with the new measurement.  The
result is the index of the measurement at which the loop broke. -/
def scrollLoop (measure : Nat → Nat) : Nat → Nat → Nat → Option Nat
  | 0, _, _ => none
  | fuel + 1, prev, i =>
    if measure i = prev then some i
    else scrollLoop measure fuel (measure i) (i + 1)

/-- Model of `scroll_page`: the initial measurement, then the loop. -/
def scroll_page (measure : Nat → Nat) (fuel : Nat) : Option Nat :=
  scrollLoop measure fuel (measure 0) 1

/-- The same loop with the randomized backward-scroll humanisation of lines
89-93 explicit: `rand t = (fire, magnitude)` decides the 30% backward scroll;
`pos` is the window scroll position it perturbs.  `scrollHeight` is a
property of the document, not of the scroll position, so `measure` does not
depend on `pos`. -/
def scrollLoopH (measure : Nat → Nat) (rand : Nat → Bool × Nat) :
    Nat → Nat → Nat → Nat → Option (Nat × Nat)
  | 0, _, _, _ => none
  | fuel + 1, prev, i, _pos =>
    let posBottom := measure i
    if measure i = prev then some (i, posBottom)
    else
      let posNext := if (rand i).1 then posBottom - (rand i).2 else posBottom
      scrollLoopH measure rand fuel (measure i) (i + 1) posNext

/-- Model of `scroll_page` with humanisation. -/
def scroll_pageH (measure : Nat → Nat) (rand : Nat → Bool × Nat) (fuel : Nat) :
    Option (Nat × Nat) :=
  scrollLoopH measure rand fuel (measure 0) 1 0

/-! ## JSON serialisation of the cookie file (claim C7)

`save_cookies` writes `json.dump(cookies, f)` and `load_cookies` reads
`json.load(f)`; the cookie list is a JSON array of flat objects
(`{name, value, domain, path, expires, ...}` per the interface description).
The encoder below reproduces `json.dump`'s output for such a document
(default separators `', '` and `': '`, `ensure_ascii=True` escaping); the
decoder is a scanner for the same document shape, behaving as `json.load`
does on every document the encoder can produce (it rejects lone surrogate
escapes, which the encoder never emits because model characters are Unicode
scalar values). -/

/-- Lower-case hexadecimal digit, as `json.dump` emits in `\uXXXX`. -/
def hexDigitChar (n : Nat) : Char :=
  if n < 10 then Char.ofNat (48 + n) else Char.ofNat (87 + n)

/-- Four-digit hexadecimal rendering of `n < 65536`. -/
def hex4 (n : Nat) : Str :=
  [hexDigitChar (n / 4096 % 16), hexDigitChar (n / 256 % 16),
    hexDigitChar (n / 16 % 16), hexDigitChar (n % 16)]

/-- The `ensure_ascii` encoding `json.dump` applies to one character: the short
escapes of its escape table, `\u00xx` for other control characters, the
character itself for printable ASCII, and `\uXXXX` (with a surrogate pair
above the BMP) for everything non-ASCII. -/
def encodeChar (c : Char) : Str :=
  if c = '"' then ['\\', '"']
  else if c = '\\' then ['\\', '\\']
  else if c = Char.ofNat 10 then ['\\', 'n']
  else if c = Char.ofNat 13 then ['\\', 'r']
  else if c = Char.ofNat 9 then ['\\', 't']
  else if c = Char.ofNat 8 then ['\\', 'b']
  else if c = Char.ofNat 12 then ['\\', 'f']
  else if c.toNat < 32 then '\\' :: 'u' :: hex4 c.toNat
  else if c.toNat < 127 then [c]
  else if c.toNat < 65536 then '\\' :: 'u' :: hex4 c.toNat
  else
    ('\\' :: 'u' :: hex4 (55296 + (c.toNat - 65536) / 1024)) ++
      ('\\' :: 'u' :: hex4 (56320 + (c.toNat - 65536) % 1024))

/-- Body of a JSON string (no surrounding quotes). -/
def encodeStrBody (s : Str) : Str := (s.map encodeChar).flatten

/-- A JSON string literal. -/
def encodeStr (s : Str) : Str := '"' :: encodeStrBody s ++ ['"']

/-- Value of one hexadecimal digit (either case accepted, as `json.load`). -/
def fromHexDigit (c : Char) : Option Nat :=
  if 48 ≤ c.toNat && c.toNat ≤ 57 then some (c.toNat - 48)
  else if 97 ≤ c.toNat && c.toNat ≤ 102 then some (c.toNat - 87)
  else if 65 ≤ c.toNat && c.toNat ≤ 70 then some (c.toNat - 55)
  else none

/-- Four hexadecimal digits. -/
def parse4Hex : Str → Option (Nat × Str)
  | a :: b :: c :: d :: rest => do
    let x ← fromHexDigit a
    let y ← fromHexDigit b
    let z ← fromHexDigit c
    let w ← fromHexDigit d
    pure (((x * 16 + y) * 16 + z) * 16 + w, rest)
  | _ => none

/-- The short escapes `json.load` accepts after a backslash (besides `u`). -/
def escDecode (e : Char) : Option Char :=
  if e = '"' then some '"'
  else if e = '\\' then some '\\'
  else if e = '/' then some '/'
  else if e = 'n' then some (Char.ofNat 10)
  else if e = 'r' then some (Char.ofNat 13)
  else if e = 't' then some (Char.ofNat 9)
  else if e = 'b' then some (Char.ofNat 8)
  else if e = 'f' then some (Char.ofNat 12)
  else none

/-- After a high surrogate `\uXXXX` escape, `json.load` pairs it with an
immediately following low surrogate escape. -/
def parseLowSurrogate (hi : Nat) : Str → Option (Char × Str)
  | '\\' :: 'u' :: cs4 =>
    match parse4Hex cs4 with
    | some (lo, cs5) =>
      if 56320 ≤ lo ∧ lo < 57344 then
        some (Char.ofNat (65536 + (hi - 55296) * 1024 + (lo - 56320)), cs5)
      else none
    | none => none
  | _ => none

/-- Classify the value of a `\uXXXX` escape: a high surrogate expects a
paired low surrogate next, a lone low surrogate is rejected (the encoder
never produces one, since model characters are Unicode scalar values), and
anything else is the character itself. -/
def parseUHexVal (n : Nat) (cs3 : Str) : Option (Char × Str) :=
  if 55296 ≤ n ∧ n < 56320 then parseLowSurrogate n cs3
  else if 56320 ≤ n ∧ n < 57344 then none
  else some (Char.ofNat n, cs3)

/-- The four hex digits after `\u`, recombining surrogate pairs. -/
def parseUHex (s : Str) : Option (Char × Str) :=
  match parse4Hex s with
  | none => none
  | some nc => parseUHexVal nc.1 nc.2

/-- The escape after a backslash: `\uXXXX` or one of the short escapes. -/
def parseEscape : Str → Option (Char × Str)
  | [] => none
  | e :: cs2 =>
    if e = 'u' then parseUHex cs2
    else
      match escDecode e with
      | some d => some (d, cs2)
      | none => none

/-- Decode the body of a JSON string up to the closing quote, handling the
escape table, `\uXXXX`, and surrogate pairs.  Each step consumes at least one
input character, so fuel equal to the input length suffices. -/
def parseStrBody : Nat → Str → Option (Str × Str)
  | 0, _ => none
  | _ + 1, [] => none
  | fuel + 1, c :: cs =>
    if c = '"' then some ([], cs)
    else if c = '\\' then
      match parseEscape cs with
      | none => none
      | some (d, cs2) => (parseStrBody fuel cs2).map fun p => (d :: p.1, p.2)
    else (parseStrBody fuel cs).map fun p => (c :: p.1, p.2)

/-- A JSON string literal (opening quote, body, closing quote). -/
def parseStrTop (s : Str) : Option (Str × Str) :=
  match s with
  | '"' :: rest => parseStrBody rest.length rest
  | _ => none

/-- ASCII decimal digit of `k < 10`. -/
def digitChar (k : Nat) : Char := Char.ofNat (48 + k)

/-- Decimal rendering of a natural number, most significant digit first. -/
def encodeNatF : Nat → Nat → Str
  | 0, _ => []
  | fuel + 1, n =>
    if n < 10 then [digitChar n]
    else encodeNatF fuel (n / 10) ++ [digitChar (n % 10)]

/-- Decimal rendering of `n` (fuel `n + 1` always suffices). -/
def encodeNat (n : Nat) : Str := encodeNatF (n + 1) n

/-- Rendering of a Python int by `json.dump`. -/
def encodeInt (i : Int) : Str :=
  if i < 0 then '-' :: encodeNat i.natAbs else encodeNat i.natAbs

/-- Value of a digit string, most significant first. -/
def digitsVal (ds : Str) : Nat := ds.foldl (fun a c => a * 10 + (c.toNat - 48)) 0

/-- A non-empty digit run and its value. -/
def parseNatPart (s : Str) : Option (Nat × Str) :=
  let p := s.span Char.isDigit
  if p.1.isEmpty then none else some (digitsVal p.1, p.2)

/-- A JSON integer (optional minus sign, digit run). -/
def parseNum (s : Str) : Option (Int × Str) :=
  match s with
  | [] => none
  | c :: rest =>
    if c = '-' then (parseNatPart rest).map fun p => (-(p.1 : Int), p.2)
    else (parseNatPart (c :: rest)).map fun p => ((p.1 : Int), p.2)

/-- Rendering of a Python bool by `json.dump`. -/
def encodeBool (b : Bool) : Str := if b then strOf "true" else strOf "false"

/-- A JSON boolean literal. -/
def parseBool (s : Str) : Option (Bool × Str) :=
  if (strOf "true").isPrefixOf s then some (true, s.drop 4)
  else if (strOf "false").isPrefixOf s then some (false, s.drop 5)
  else none

/-- One cookie record of the credential file: the JSON object
`{name, value, domain, path, expires, ...}` described by the external
interface, with string, integer and boolean fields. -/
structure Cookie where
  name : Str
  value : Str
  domain : Str
  path : Str
  expires : Int
  httpOnly : Bool
  secure : Bool
deriving Repr, DecidableEq

/-- A JSON object key followed by `json.dump`'s `': '` separator (cookie
keys contain no characters needing escapes). -/
def keyLit (k : String) : Str := '"' :: strOf k ++ '"' :: ':' :: [' ']

/-- The `', '` separator between object members and array items. -/
def commaSp : Str := ',' :: [' ']

/-- Rendering of one cookie object by `json.dump`, keys in record order, separators
`', '` and `': '`. -/
def dumpCookie (ck : Cookie) : Str :=
  [Char.ofNat 123] ++
    (keyLit "name" ++ (encodeStr ck.name ++ (commaSp ++
      (keyLit "value" ++ (encodeStr ck.value ++ (commaSp ++
        (keyLit "domain" ++ (encodeStr ck.domain ++ (commaSp ++
          (keyLit "path" ++ (encodeStr ck.path ++ (commaSp ++
            (keyLit "expires" ++ (encodeInt ck.expires ++ (commaSp ++
              (keyLit "httpOnly" ++ (encodeBool ck.httpOnly ++ (commaSp ++
                (keyLit "secure" ++ (encodeBool ck.secure ++
                  [Char.ofNat 125]))))))))))))))))))))

/-- Interleave a separator between strings. -/
def joinSep (sep : Str) : List Str → Str
  | [] => []
  | [x] => x
  | x :: y :: xs => x ++ (sep ++ joinSep sep (y :: xs))

/-- Rendering of the cookie list by `json.dump`. -/
def dumpCookies (cs : List Cookie) : Str :=
  '[' :: (joinSep commaSp (cs.map dumpCookie) ++ [']'])

/-- A key and its string value, followed by the `', '` separator. -/
def parseStrField (k : String) (s : Str) : Option (Str × Str) :=
  (expectLit (keyLit k) s).bind fun s1 =>
    (parseStrTop s1).bind fun vs =>
      (expectLit commaSp vs.2).map fun s3 => (vs.1, s3)

/-- A key and its integer value, followed by the `', '` separator. -/
def parseIntField (k : String) (s : Str) : Option (Int × Str) :=
  (expectLit (keyLit k) s).bind fun s1 =>
    (parseNum s1).bind fun vs =>
      (expectLit commaSp vs.2).map fun s3 => (vs.1, s3)

/-- A key and its boolean value, followed by `after` (either the `', '`
separator or the closing brace). -/
def parseBoolField (k : String) (after : Str) (s : Str) : Option (Bool × Str) :=
  (expectLit (keyLit k) s).bind fun s1 =>
    (parseBool s1).bind fun vs =>
      (expectLit after vs.2).map fun s3 => (vs.1, s3)

/-- Parse one cookie object of the document shape `dumpCookie` produces
(which is how `json.load` reads it back). -/
def parseCookie (s : Str) : Option (Cookie × Str) :=
  (expectLit [Char.ofNat 123] s).bind fun t0 =>
    (parseStrField "name" t0).bind fun nm =>
      (parseStrField "value" nm.2).bind fun vl =>
        (parseStrField "domain" vl.2).bind fun dm =>
          (parseStrField "path" dm.2).bind fun pt =>
            (parseIntField "expires" pt.2).bind fun ex =>
              (parseBoolField "httpOnly" commaSp ex.2).bind fun ho =>
                (parseBoolField "secure" [Char.ofNat 125] ho.2).map fun sec =>
                  (Cookie.mk nm.1 vl.1 dm.1 pt.1 ex.1 ho.1 sec.1, sec.2)

/-- Parse the comma-separated cookie objects up to the closing `']'`,
requiring the document to end there (fuelled; each item consumes at least
one character). -/
def parseItems : Nat → Str → Option (List Cookie)
  | 0, _ => none
  | fuel + 1, s =>
    (parseCookie s).bind fun cr =>
      match cr.2 with
      | ']' :: r2 => if r2.isEmpty then some [cr.1] else none
      | ',' :: ' ' :: r2 => (parseItems fuel r2).map (cr.1 :: ·)
      | _ => none

/-- Model of `json.load` on the credential file document. -/
def parseCookies (s : Str) : Option (List Cookie) :=
  match s with
  | '[' :: rest => if rest = [']'] then some [] else parseItems rest.length rest
  | _ => none

/-- Model of `save_cookies` (`src/linkedin_login.py` lines 49-57): serialise with
`json.dump` and run the two filesystem effects on the cookie-file cell. -/
def save_cookies (cs : List Cookie) (fs : Option Str) : Option Str :=
  runSteps (saveSteps (dumpCookies cs)) fs

/-- Model of `load_cookies` (`src/linkedin_login.py` lines 34-47): if the file is
present, parse it with `json.load`; absence or a parse error yields `none`
(the script returns `False` after logging). -/
def load_cookies (file : Option Str) : Option (List Cookie) :=
  file.bind parseCookies

/-! # Theorems -/

theorem filterMap_if_length {α β : Type} (p : α → Bool) (f : α → β) (l : List α) :
    (l.filterMap fun a => if p a then some (f a) else none).length +
      (l.filter fun a => !p a).length = l.length := by
  induction l with
  | nil => rfl
  | cons a l ih =>
    by_cases h : p a <;> simp [List.filterMap_cons, List.filter_cons, h] <;> omega

/-- C1 (counterexample): on the exact input string given by the spec, both
markdown extractor variants return no record at all — the hand-written
pattern requires the literal redirector prefix `https://www.bing.com/<`
between `](` and the profile URL, and the spec input has `https://x/<`
there instead. -/
theorem C1_spec_input_yields_no_record :
    extract_linkedin_profiles (strOf "[Jane Doe](https://x/<https://www.linkedin.com/in/jane>)\n## [**Jane Doe** - **HR Manager at Acme**]\n500+ connections") = [] ∧
    extract_linkedin_profiles_w (strOf "[Jane Doe](https://x/<https://www.linkedin.com/in/jane>)\n## [**Jane Doe** - **HR Manager at Acme**]\n500+ connections") = [] := by
  constructor <;> decide

/-- C1 (amended): with the redirector prefix the pattern actually requires
(`https://www.bing.com/<`) and with a following bracketed link — without
which the description window `markdown.find('[', desc_start)` comes back
empty and connections stays `"Not specified"` — extraction yields exactly one
record with name `Jane Doe`, designation `HR Manager at Acme`, company
`Acme`, connections `500+`. -/
theorem C1_amended_extraction :
    extract_linkedin_profiles (strOf "[Jane Doe](https://www.bing.com/<https://www.linkedin.com/in/jane>)\n## [**Jane Doe** - **HR Manager at Acme**]\n500+ connections\n[next](y)") =
      [LinkedInProfile.mk (strOf "Jane Doe") (strOf "HR Manager at Acme")
        (strOf "https://www.linkedin.com/in/jane") (strOf "500+ connections")
        (strOf "500+") (strOf "Acme")] := by
  decide

/-- C9 (counterexample): the number of skipped (identity-key-less) records is
not observable after extraction: a document whose only match lacks a
`linkedin.com/in/` link and the empty document produce identical extraction
output, yet one drops a record and the other drops none — there is no
skipped counter anywhere in the scripts. -/
theorem C9_skip_count_not_observable :
    extract_linkedin_profiles (strOf "[A](https://www.bing.com/<https://x.com/a>)\n## [B]") =
      extract_linkedin_profiles (strOf "") ∧
    countSkippedProfiles (strOf "[A](https://www.bing.com/<https://x.com/a>)\n## [B]") = 1 ∧
    countSkippedProfiles (strOf "") = 0 := by
  refine ⟨by decide, by decide, by decide⟩

/-- C9 (amended): a match with no resolvable identity key is dropped without
failing — every match either yields exactly one record or is silently
skipped, so record count plus (ghost) skip count equals match count — but the
scripts keep no skipped counter: the model's `countSkippedProfiles` re-scans
the input, and extraction output alone does not determine it (witnessed by
the two documents below with equal output and different drop counts). -/
theorem C9_drops_are_silent_and_uncounted :
    (∀ markdown : Str,
      (extract_linkedin_profiles markdown).length + countSkippedProfiles markdown =
        (findIterProf markdown.length markdown).length) ∧
    extract_linkedin_profiles (strOf "[A](https://www.bing.com/<https://x.com/a>)\n## [B]") = [] ∧
    extract_linkedin_profiles (strOf "") = [] ∧
    countSkippedProfiles (strOf "[A](https://www.bing.com/<https://x.com/a>)\n## [B]") = 1 ∧
    countSkippedProfiles (strOf "") = 0 := by
  refine ⟨fun markdown => ?_, by decide, by decide, by decide, by decide⟩
  exact filterMap_if_length _ _ _

/-- C6 (counterexample): a save of new content interrupted after the
truncation step leaves the cookie file empty — neither the complete old
content nor the complete new content: the write is open-truncate-then-write,
not write-temp-then-rename. -/
theorem C6_interrupted_save_corrupts :
    interruptedSave (strOf "NEW") 1 (some (strOf "OLD")) ≠ some (strOf "OLD") ∧
    interruptedSave (strOf "NEW") 1 (some (strOf "OLD")) ≠ some (strOf "NEW") ∧
    interruptedSave (strOf "NEW") 1 (some (strOf "OLD")) = some [] := by
  refine ⟨by decide, by decide, by decide⟩

/-- C6 (amended): `save_cookies` replaces the file content in place: running
both effects leaves exactly the new content, an interruption before any
effect leaves the old cell, and an interruption between truncation and write
leaves an empty file (so a crash mid-save loses the old credential; the next
run's `load_cookies` only survives because its `try/except` treats the
corrupt file as no cookies). -/
theorem C6_save_is_in_place :
    ∀ (content : Str) (fs : Option Str),
      runSteps (saveSteps content) fs = some content ∧
      interruptedSave content 0 fs = fs ∧
      interruptedSave content 1 fs = some [] ∧
      interruptedSave content 2 fs = some content := by
  intro content fs
  exact ⟨rfl, rfl, rfl, rfl⟩

theorem pyReplaceF_self (old : Str) :
    ∀ (fuel : Nat) (s : Str), s.length ≤ fuel → pyReplaceF old old fuel s = s := by
  intro fuel
  induction fuel with
  | zero =>
    intro s hs
    cases s with
    | nil => rfl
    | cons c cs => simp at hs
  | succ fuel ih =>
    intro s hs
    cases s with
    | nil => rfl
    | cons c cs =>
      by_cases h : (old.isPrefixOf (c :: cs) && !old.isEmpty) = true
      · have hsplit := (Bool.and_eq_true _ _).mp h
        have hpre : old <+: (c :: cs) := List.isPrefixOf_iff_prefix.mp hsplit.1
        have hne : old ≠ [] := by
          intro hcon
          rw [hcon] at hsplit
          simp at hsplit
        have hlen : 1 ≤ old.length := by
          cases old with
          | nil => exact absurd rfl hne
          | cons a as => simp
        have heq : old ++ List.drop old.length (c :: cs) = c :: cs :=
          List.prefix_iff_eq_append.mp hpre
        have hdl : (List.drop old.length (c :: cs)).length ≤ fuel := by
          rw [List.length_drop]
          simp only [List.length_cons] at hs ⊢
          omega
        rw [pyReplaceF, if_pos h, ih _ hdl, heq]
      · rw [pyReplaceF, if_neg h]
        have hcs : cs.length ≤ fuel := by
          simp only [List.length_cons] at hs
          omega
        rw [ih _ hcs]

theorem pyReplace_self (old s : Str) : pyReplace old old s = s :=
  pyReplaceF_self old s.length s (Nat.le_refl _)

theorem matchConnAt_digits {ci : Bool} {s d : Str} (h : matchConnAt ci s = some d) :
    d ≠ [] ∧ ∀ c ∈ d, c.isDigit = true := by
  unfold matchConnAt at h
  split at h
  · rename_i hcond
    injection h with h
    subst h
    have hne := (Bool.and_eq_true _ _).mp hcond |>.1
    refine ⟨?_, ?_⟩
    · intro hnil
      rw [hnil] at hne
      simp at hne
    · intro c hc
      exact List.mem_takeWhile_imp hc
  · exact absurd h (by simp)

theorem connSearch_digits (ci : Bool) :
    ∀ (s d : Str), connSearch ci s = some d → d ≠ [] ∧ ∀ c ∈ d, c.isDigit = true := by
  intro s
  induction s with
  | nil =>
    intro d h
    exact absurd h (by simp [connSearch])
  | cons c cs ih =>
    intro d h
    rw [connSearch] at h
    cases hm : matchConnAt ci (c :: cs) with
    | some d0 =>
      rw [hm] at h
      injection h with h
      subst h
      exact matchConnAt_digits hm
    | none =>
      rw [hm] at h
      exact ih d h

theorem connectionsFor_inv (ci : Bool) (desc : Str) : connInv (connectionsFor ci desc) := by
  unfold connectionsFor connInv
  split
  · cases hcs : connSearch ci desc with
    | some d =>
      right
      obtain ⟨hne, hdig⟩ := connSearch_digits ci desc d hcs
      exact ⟨d, hne, hdig, rfl⟩
    | none =>
      left
      rfl
  · left
    rfl

theorem mkProfileG_company (md : Str) (m : ProfMatch) :
    (mkProfileG md m).company = companyOfDesignation (mkProfileG md m).designation := by
  simp only [mkProfileG]
  split
  · unfold companyOfDesignation
    rfl
  · decide

/-- C8 (counterexample): an extracted record whose designation contains
`" At "` — hence neither `" at "` nor `" @ "` literally — still gets a
non-default company: the guard lowercases the designation but the split does
not, so `split(' at ')` finds no separator and its last piece is the whole
designation, which `.strip()` then returns as the company. -/
theorem C8_counterexample_case_guard :
    ((extract_linkedin_profiles (strOf "[J](https://www.bing.com/<https://www.linkedin.com/in/j>)\n## [J - HR At Acme]")).map
      fun p => (p.designation, p.company)) = [(strOf "HR At Acme", strOf "HR At Acme")] ∧
    containsSub (strOf " at ") (strOf "HR At Acme") = false ∧
    containsSub (strOf " @ ") (strOf "HR At Acme") = false ∧
    strOf "HR At Acme" ≠ strOf "Not specified" := by
  refine ⟨by decide, by decide, by decide, by decide⟩

/-- C8 (amended): for every record the markdown extractor returns, the
company field is determined by the designation as follows: when the
lowercased designation contains `" at "`, the company is the text after the
last case-sensitive `" at "` occurrence, trimmed — which is the whole
trimmed designation when the guard only hit case-insensitively; otherwise,
when the designation contains `" @ "`, the company is the text after the
last `" @ "`, trimmed; otherwise the company keeps the default
`"Not specified"`. -/
theorem C8_company_rule :
    ∀ (markdown : Str) (p : LinkedInProfile), p ∈ extract_linkedin_profiles markdown →
      p.company = companyOfDesignation p.designation := by
  intro markdown p hp
  unfold extract_linkedin_profiles at hp
  rw [List.mem_filterMap] at hp
  obtain ⟨m, _hm, hsome⟩ := hp
  by_cases hc : containsSub (strOf "linkedin.com/in/") m.g2 = true
  · rw [if_pos hc] at hsome
    injection hsome with h
    subst h
    exact mkProfileG_company markdown m
  · rw [if_neg hc] at hsome
    exact absurd hsome (by simp)

/-- C8 (witness): the company rule evaluated on the record extracted from a
concrete search-result document. -/
theorem C8_company_rule_witness :
    (LinkedInProfile.mk (strOf "Jane Doe") (strOf "HR Manager at Acme")
      (strOf "https://www.linkedin.com/in/jane") (strOf "500+ connections")
      (strOf "500+") (strOf "Acme")).company =
      companyOfDesignation (LinkedInProfile.mk (strOf "Jane Doe")
        (strOf "HR Manager at Acme") (strOf "https://www.linkedin.com/in/jane")
        (strOf "500+ connections") (strOf "500+") (strOf "Acme")).designation :=
  C8_company_rule
    (strOf "[Jane Doe](https://www.bing.com/<https://www.linkedin.com/in/jane>)\n## [**Jane Doe** - **HR Manager at Acme**]\n500+ connections\n[next](y)")
    _ (by decide)

/-- C10: every record either of the markdown extractor variants returns has a
connections field that is exactly `"Not specified"` or a non-empty digit
string followed by a single `'+'` (the `'+'` comes from the `f"{digits}+"`
formatting, not the source text), and a URL containing `linkedin.com/in/`
(the `continue` filter admits only such matches, and the URL `replace` with
identical arguments changes nothing). -/
theorem C10_connections_and_url :
    (∀ (markdown : Str) (p : LinkedInProfile), p ∈ extract_linkedin_profiles markdown →
      connInv p.connections ∧ containsSub (strOf "linkedin.com/in/") p.url = true) ∧
    (∀ (markdown : Str) (q : WProfile), q ∈ extract_linkedin_profiles_w markdown →
      connInv q.connections ∧ containsSub (strOf "linkedin.com/in/") q.url = true) := by
  constructor
  · intro markdown p hp
    unfold extract_linkedin_profiles at hp
    rw [List.mem_filterMap] at hp
    obtain ⟨m, _hm, hsome⟩ := hp
    by_cases hc : containsSub (strOf "linkedin.com/in/") m.g2 = true
    · rw [if_pos hc] at hsome
      injection hsome with h
      subst h
      refine ⟨connectionsFor_inv true (descriptionFor markdown m), ?_⟩
      show containsSub _ (pyReplace (strOf "https://") (strOf "https://") m.g2) = true
      rw [pyReplace_self]
      exact hc
    · rw [if_neg hc] at hsome
      exact absurd hsome (by simp)
  · intro markdown q hq
    unfold extract_linkedin_profiles_w at hq
    rw [List.mem_filterMap] at hq
    obtain ⟨m, _hm, hsome⟩ := hq
    by_cases hc : containsSub (strOf "linkedin.com/in/") m.g2 = true
    · rw [if_pos hc] at hsome
      injection hsome with h
      subst h
      refine ⟨connectionsFor_inv false (descriptionFor markdown m), ?_⟩
      show containsSub _ (pyReplace (strOf "https://") (strOf "https://") m.g2) = true
      rw [pyReplace_self]
      exact hc
    · rw [if_neg hc] at hsome
      exact absurd hsome (by simp)

/-- C10 (witness): the invariant evaluated on the record extracted from a
concrete search-result document. -/
theorem C10_connections_and_url_witness :
    connInv (strOf "500+") ∧
      containsSub (strOf "linkedin.com/in/") (strOf "https://www.linkedin.com/in/jane") = true :=
  C10_connections_and_url.1
    (strOf "[Jane Doe](https://www.bing.com/<https://www.linkedin.com/in/jane>)\n## [**Jane Doe** - **HR Manager at Acme**]\n500+ connections\n[next](y)")
    (LinkedInProfile.mk (strOf "Jane Doe") (strOf "HR Manager at Acme")
      (strOf "https://www.linkedin.com/in/jane") (strOf "500+ connections")
      (strOf "500+") (strOf "Acme"))
    (by decide)

theorem containsSub_singleton (c : Char) : ∀ s : Str, containsSub [c] s = true ↔ c ∈ s := by
  intro s
  induction s with
  | nil => simp [containsSub]
  | cons x xs ih =>
    rw [containsSub]
    simp only [Bool.or_eq_true, ih, List.mem_cons]
    constructor
    · rintro (h | h)
      · left
        have : (c == x) = true := by
          simpa [List.isPrefixOf] using h
        exact (beq_iff_eq.mp this)
      · right; exact h
    · rintro (h | h)
      · left
        simp [List.isPrefixOf, h]
      · right; exact h

theorem contains_iff_mem (S : List Str) (k : Str) : S.contains k = true ↔ k ∈ S := by
  simp [List.contains]

theorem splitFirst_qmark (q : Str) : ∀ u : Str, '?' ∉ u →
    splitFirst ['?'] (u ++ '?' :: q) = some (u, q) := by
  intro u
  induction u with
  | nil =>
    intro _
    rw [List.nil_append, splitFirst, if_pos (by simp [List.isPrefixOf])]
    rfl
  | cons c cs ih =>
    intro hnc
    have hc : c ≠ '?' := fun h => hnc (h ▸ List.mem_cons_self c cs)
    rw [List.cons_append, splitFirst, if_neg ?_, ih (fun h => hnc (List.mem_cons_of_mem c h))]
    simp [List.isPrefixOf]
    intro h
    exact absurd h.symm hc

theorem normalizeKey_no_qmark {u : Str} (h : '?' ∉ u) : normalizeKey u = u := by
  unfold normalizeKey
  rw [if_neg]
  intro hc
  exact h ((containsSub_singleton '?' u).mp hc)

theorem normalizeKey_append_qmark (q u : Str) (h : '?' ∉ u) :
    normalizeKey (u ++ '?' :: q) = u := by
  unfold normalizeKey
  rw [if_pos ((containsSub_singleton _ _).mpr (by simp))]
  rw [pySplit]
  have hl : (u ++ '?' :: q).length = (u.length + q.length) + 1 := by
    simp [List.length_append]
    omega
  rw [hl, pySplitF, splitFirst_qmark q u h]
  rfl

theorem is_new_false {S : List Str} {v : Str} (h : normalizeKey v ∈ S) :
    (is_new S v).1 = false := by
  unfold is_new
  rw [if_pos ((contains_iff_mem _ _).mpr h)]

theorem is_new_true {S : List Str} {u : Str} (h : normalizeKey u ∉ S) :
    (is_new S u).1 = true ∧ (is_new S u).2 = normalizeKey u :: S := by
  unfold is_new
  rw [if_neg (fun hc => h ((contains_iff_mem _ _).mp hc))]
  exact ⟨rfl, rfl⟩

theorem is_new_mem_mono {S : List Str} {k : Str} (h : k ∈ S) (v : Str) :
    k ∈ (is_new S v).2 := by
  unfold is_new
  by_cases hc : S.contains (normalizeKey v) = true
  · rw [if_pos hc]
    exact h
  · rw [if_neg hc]
    exact List.mem_cons_of_mem _ h

theorem runCalls_mem_mono {k : Str} :
    ∀ (calls : List Str) (S : List Str), k ∈ S → k ∈ runCalls calls S := by
  intro calls
  induction calls with
  | nil => intro S h; exact h
  | cons v vs ih =>
    intro S h
    exact ih _ (is_new_mem_mono h v)

/-- C3: within one run, `is_new` answers true exactly once per distinct
normalised key: on a key not yet recorded it answers true and records the
key; afterwards — regardless of how many other keys are recorded in
between — any URL with the same normalised key (in particular the same
canonical URL with any query-string suffix attached, which normalisation
strips) gets false. -/
theorem C3_dedup_true_exactly_once (S : List Str) (u : Str) (h : normalizeKey u ∉ S) :
    (is_new S u).1 = true ∧
    (∀ (mids : List Str) (v : Str), normalizeKey v = normalizeKey u →
      (is_new (runCalls mids (is_new S u).2) v).1 = false) ∧
    (∀ q : Str, '?' ∉ u → normalizeKey (u ++ '?' :: q) = normalizeKey u) := by
  refine ⟨(is_new_true h).1, ?_, ?_⟩
  · intro mids v hv
    have hrec : normalizeKey u ∈ (is_new S u).2 := by
      rw [(is_new_true h).2]
      exact List.mem_cons_self _ _
    have hmem : normalizeKey u ∈ runCalls mids (is_new S u).2 := runCalls_mem_mono mids _ hrec
    exact is_new_false (by rw [hv]; exact hmem)
  · intro q hq
    rw [normalizeKey_append_qmark q u hq, normalizeKey_no_qmark hq]

/-- C3 (witness): a fresh profile URL is new once; after an unrelated
profile is recorded, the same URL carrying a tracking query string is
recognised as a duplicate. -/
theorem C3_dedup_witness :
    (is_new [] (strOf "https://www.linkedin.com/in/jane")).1 = true ∧
    (is_new (runCalls [strOf "https://www.linkedin.com/in/other"]
        (is_new [] (strOf "https://www.linkedin.com/in/jane")).2)
      (strOf "https://www.linkedin.com/in/jane?trk=abc")).1 = false := by
  have h := C3_dedup_true_exactly_once [] (strOf "https://www.linkedin.com/in/jane") (by decide)
  exact ⟨h.1, h.2.1 [strOf "https://www.linkedin.com/in/other"]
    (strOf "https://www.linkedin.com/in/jane?trk=abc") (by decide)⟩

theorem scrollLoop_halts (measure : Nat → Nat) :
    ∀ (fuel i : Nat), 1 ≤ i →
      (∃ k, k < fuel ∧ measure (i + k) = measure (i + k - 1)) →
      ∃ j, scrollLoop measure fuel (measure (i - 1)) i = some j := by
  intro fuel
  induction fuel with
  | zero =>
    intro i _ hk
    obtain ⟨k, hk, _⟩ := hk
    omega
  | succ fuel ih =>
    intro i hi hk
    obtain ⟨k, hkf, hkeq⟩ := hk
    by_cases h0 : measure i = measure (i - 1)
    · exact ⟨i, by rw [scrollLoop, if_pos h0]⟩
    · rw [scrollLoop, if_neg h0]
      have hk0 : k ≠ 0 := by
        intro hc
        subst hc
        simp only [Nat.add_zero] at hkeq
        exact h0 hkeq
      have hnext : ∃ k', k' < fuel ∧ measure (i + 1 + k') = measure (i + 1 + k' - 1) := by
        refine ⟨k - 1, by omega, ?_⟩
        have h1 : i + 1 + (k - 1) = i + k := by omega
        rw [h1]
        exact hkeq
      have := ih (i + 1) (by omega) hnext
      simpa using this

theorem scrollLoop_first_eq (measure : Nat → Nat) :
    ∀ (fuel i j : Nat), 1 ≤ i →
      scrollLoop measure fuel (measure (i - 1)) i = some j →
      i ≤ j ∧ measure j = measure (j - 1) ∧
        ∀ t, i ≤ t → t < j → measure t ≠ measure (t - 1) := by
  intro fuel
  induction fuel with
  | zero =>
    intro i j _ h
    exact absurd h (by simp [scrollLoop])
  | succ fuel ih =>
    intro i j hi h
    rw [scrollLoop] at h
    by_cases h0 : measure i = measure (i - 1)
    · rw [if_pos h0] at h
      injection h with h
      subst h
      exact ⟨Nat.le_refl _, h0, fun t ht1 ht2 => absurd (Nat.lt_of_lt_of_le ht2 ht1) (by omega)⟩
    · rw [if_neg h0] at h
      have h' : scrollLoop measure fuel (measure (i + 1 - 1)) (i + 1) = some j := by
        simpa using h
      obtain ⟨hij, heq, hmin⟩ := ih (i + 1) j (by omega) h'
      refine ⟨by omega, heq, ?_⟩
      intro t ht1 ht2
      by_cases hti : t = i
      · subst hti
        exact h0
      · exact hmin t (by omega) ht2

theorem scrollLoop_no_cap (measure : Nat → Nat)
    (hgrow : ∀ t, 1 ≤ t → measure t ≠ measure (t - 1)) :
    ∀ (fuel i : Nat), 1 ≤ i → scrollLoop measure fuel (measure (i - 1)) i = none := by
  intro fuel
  induction fuel with
  | zero => intro i _; rfl
  | succ fuel ih =>
    intro i hi
    rw [scrollLoop, if_neg (hgrow i hi)]
    have := ih (i + 1) (by omega)
    simpa using this

theorem scrollLoopH_fst (measure : Nat → Nat) (rand : Nat → Bool × Nat) :
    ∀ (fuel prev i pos : Nat),
      (scrollLoopH measure rand fuel prev i pos).map Prod.fst =
        scrollLoop measure fuel prev i := by
  intro fuel
  induction fuel with
  | zero => intro prev i pos; rfl
  | succ fuel ih =>
    intro prev i pos
    rw [scrollLoopH, scrollLoop]
    by_cases h0 : measure i = prev
    · rw [if_pos h0, if_pos h0]
      rfl
    · rw [if_neg h0, if_neg h0]
      exact ih _ _ _

/-- C5: the scroll loop (a) halts on every page stub whose measured extent
eventually stabilises, (b) halts exactly at the first pair of equal
consecutive extent measurements — equality is its only exit, (c) never halts
on a page whose extent grows at every step (there is no iteration cap), and
(d) the randomized backward-scroll humanisation leaves the measurement
sequence, and hence the halting behaviour, unchanged. -/
theorem C5_scroll_loop (measure : Nat → Nat) (rand : Nat → Bool × Nat) :
    ((∃ N, ∀ m, N ≤ m → measure m = measure N) →
      ∃ fuel j, scroll_page measure fuel = some j) ∧
    (∀ fuel j, scroll_page measure fuel = some j →
      1 ≤ j ∧ measure j = measure (j - 1) ∧
        ∀ t, 1 ≤ t → t < j → measure t ≠ measure (t - 1)) ∧
    ((∀ t, 1 ≤ t → measure t ≠ measure (t - 1)) →
      ∀ fuel, scroll_page measure fuel = none) ∧
    (∀ fuel, (scroll_pageH measure rand fuel).map Prod.fst = scroll_page measure fuel) := by
  refine ⟨?_, ?_, ?_, ?_⟩
  · rintro ⟨N, hN⟩
    have hstep : measure (1 + N) = measure (1 + N - 1) := by
      have e1 : 1 + N - 1 = N := by omega
      rw [e1, Nat.add_comm]
      exact hN (N + 1) (by omega)
    have := scrollLoop_halts measure (N + 1) 1 (by omega) ⟨N, by omega, hstep⟩
    obtain ⟨j, hj⟩ := this
    exact ⟨N + 1, j, by simpa [scroll_page] using hj⟩
  · intro fuel j h
    have := scrollLoop_first_eq measure fuel 1 j (by omega) (by simpa [scroll_page] using h)
    exact ⟨this.1, this.2.1, this.2.2⟩
  · intro hgrow fuel
    have := scrollLoop_no_cap measure hgrow fuel 1 (by omega)
    simpa [scroll_page] using this
  · intro fuel
    exact scrollLoopH_fst measure rand fuel (measure 0) 1 0

/-- C5 (witness): on a stub whose extent grows to 3 and then stabilises, the
humanised and plain loops halt at the same step, the first with two equal
consecutive measurements. -/
theorem C5_scroll_loop_witness :
    (∃ fuel j, scroll_page (fun t => min t 3) fuel = some j) ∧
    ((scroll_pageH (fun t => min t 3) (fun _ => (true, 1)) 9).map Prod.fst =
      scroll_page (fun t => min t 3) 9) := by
  constructor
  · exact (C5_scroll_loop (fun t => min t 3) (fun _ => (true, 1))).1
      ⟨3, fun m hm => by simp [Nat.min_def]; omega⟩
  · exact (C5_scroll_loop (fun t => min t 3) (fun _ => (true, 1))).2.2.2 9

theorem chunksF_nil {α : Type} (c : Nat) : ∀ fuel : Nat, chunksF c fuel ([] : List α) = [] := by
  intro fuel
  cases fuel with
  | zero => rfl
  | succ fuel => rfl

theorem chunksF_flatten {α : Type} (c : Nat) (_hc : c ≠ 0) :
    ∀ (fuel : Nat) (l : List α), l.length ≤ fuel → (chunksF c fuel l).flatten = l := by
  intro fuel
  induction fuel with
  | zero =>
    intro l hl
    cases l with
    | nil => rfl
    | cons x xs => simp at hl
  | succ fuel ih =>
    intro l hl
    cases l with
    | nil => rfl
    | cons x xs =>
      rw [chunksF]
      have hd : (xs.drop (c - 1)).length ≤ fuel := by
        rw [List.length_drop]
        simp only [List.length_cons] at hl
        omega
      simp only [List.flatten_cons, ih _ hd, List.cons_append, List.take_append_drop]

theorem chunksF_mem {α : Type} (c : Nat) (hc : c ≠ 0) :
    ∀ (fuel : Nat) (l : List α) (w : List α), w ∈ chunksF c fuel l →
      w ≠ [] ∧ w.length ≤ c := by
  intro fuel
  induction fuel with
  | zero =>
    intro l w hw
    simp [chunksF] at hw
  | succ fuel ih =>
    intro l w hw
    cases l with
    | nil => simp [chunksF] at hw
    | cons x xs =>
      rw [chunksF] at hw
      rcases List.mem_cons.mp hw with hw | hw
      · subst hw
        refine ⟨by simp, ?_⟩
        have hmin : (c - 1) ⊓ xs.length ≤ c - 1 := Nat.min_le_left _ _
        simp only [List.length_cons, List.length_take]
        omega
      · exact ih _ w hw

theorem chunksF_dropLast_length {α : Type} (c : Nat) (hc : c ≠ 0) :
    ∀ (fuel : Nat) (l : List α), ∀ w ∈ (chunksF c fuel l).dropLast, w.length = c := by
  intro fuel
  induction fuel with
  | zero =>
    intro l w hw
    simp [chunksF] at hw
  | succ fuel ih =>
    intro l w hw
    cases l with
    | nil => simp [chunksF] at hw
    | cons x xs =>
      rw [chunksF] at hw
      cases hrec : chunksF c fuel (xs.drop (c - 1)) with
      | nil =>
        rw [hrec] at hw
        simp at hw
      | cons a rest =>
        rw [hrec] at hw
        have hdl : ((x :: xs.take (c - 1)) :: a :: rest).dropLast =
            (x :: xs.take (c - 1)) :: (a :: rest).dropLast := rfl
        rw [hdl] at hw
        rcases List.mem_cons.mp hw with hw | hw
        · subst hw
          have hne : xs.drop (c - 1) ≠ [] := by
            intro h0
            rw [h0, chunksF_nil] at hrec
            exact List.noConfusion hrec
          have hlen : c - 1 ≤ xs.length := by
            by_contra hlt
            push_neg at hlt
            exact hne (List.drop_eq_nil_of_le (by omega))
          simp only [List.length_cons, List.length_take]
          omega
        · rw [← hrec] at hw
          exact ih _ w hw

theorem handleItem_ok (oracle : Str → Except Str CrawlResult) (u : Str)
    (hq : successfulCrawl oracle u = true → (searchQuery u).isSome) :
    handleItem oracle u = Except.ok (outcomeOf oracle u) := by
  unfold handleItem outcomeOf successfulCrawl at *
  cases horc : oracle u with
  | error e => rfl
  | ok r =>
    by_cases hs : r.success = true
    · have hsq := hq (by rw [horc]; exact hs)
      cases hsqv : searchQuery u with
      | none =>
        rw [hsqv] at hsq
        simp at hsq
      | some g => simp [hs, hsqv]
    · simp [hs]

theorem handleWindow_ok (oracle : Str → Except Str CrawlResult) :
    ∀ (w : List Str),
      (∀ u ∈ w, successfulCrawl oracle u = true → (searchQuery u).isSome) →
      handleWindow oracle w = Except.ok (w.map (outcomeOf oracle)) := by
  intro w
  induction w with
  | nil => intro _; rfl
  | cons u us ih =>
    intro hok
    rw [handleWindow,
      handleItem_ok oracle u (hok u (List.mem_cons_self u us)),
      ih (fun v hv => hok v (List.mem_cons_of_mem u hv))]
    rfl

theorem crawl_windows_ok (oracle : Str → Except Str CrawlResult) :
    ∀ (ws : List (List Str)),
      (∀ w ∈ ws, ∀ u ∈ w, successfulCrawl oracle u = true → (searchQuery u).isSome) →
      crawl_windows oracle ws = Except.ok (ws.map fun w => w.map (outcomeOf oracle)) := by
  intro ws
  induction ws with
  | nil => intro _; rfl
  | cons w ws ih =>
    intro hok
    rw [crawl_windows,
      handleWindow_ok oracle w (hok w (List.mem_cons_self w ws)),
      ih (fun v hv => hok v (List.mem_cons_of_mem w hv))]
    rfl

/-- C2 (amended): for every concurrency `c ≥ 1` the batch loop partitions
the targets into consecutive windows — their concatenation is the target
list, every window is non-empty with at most `c` items, and every window
except possibly the last has exactly `c` — and, provided every successfully
crawled target's URL contains the `q=hr+...+linkedin` pattern (otherwise the
unguarded `.group(1)` of line 194 raises and aborts the batch, killing the
outcome/target equality), the batch returns one disposition per target per
window, so the total number of per-item outcomes equals the number of
targets. -/
theorem C2_windowing (c : Nat) (urls : List Str) (oracle : Str → Except Str CrawlResult)
    (hc : 1 ≤ c)
    (hq : ∀ u ∈ urls, successfulCrawl oracle u = true → (searchQuery u).isSome) :
    (chunks c urls).flatten = urls ∧
    (∀ w ∈ chunks c urls, w ≠ [] ∧ w.length ≤ c) ∧
    (∀ w ∈ (chunks c urls).dropLast, w.length = c) ∧
    crawl_parallel oracle urls c =
      Except.ok ((chunks c urls).map fun w => w.map (outcomeOf oracle)) ∧
    (((chunks c urls).map fun w => w.map (outcomeOf oracle)).flatten).length = urls.length := by
  have hc0 : c ≠ 0 := by omega
  have hch : chunks c urls = chunksF c urls.length urls := by
    unfold chunks
    rw [if_neg hc0]
  have hfl : (chunks c urls).flatten = urls := by
    rw [hch]
    exact chunksF_flatten c hc0 urls.length urls (Nat.le_refl _)
  refine ⟨hfl, ?_, ?_, ?_, ?_⟩
  · intro w hw
    rw [hch] at hw
    exact chunksF_mem c hc0 urls.length urls w hw
  · intro w hw
    rw [hch] at hw
    exact chunksF_dropLast_length c hc0 urls.length urls w hw
  · unfold crawl_parallel
    apply crawl_windows_ok
    intro w hw u hu
    exact hq u (by rw [← hfl]; exact List.mem_flatten.mpr ⟨w, hw, hu⟩)
  · rw [← List.map_flatten, List.length_map, hfl]

/-- C2 (witness): five targets at concurrency 2 give windows of sizes
2, 2, 1, and with an oracle whose crawls all raise, the batch still yields
one (errored) outcome per target. -/
theorem C2_windowing_witness :
    crawl_parallel oracleAllError
        [strOf "t1", strOf "t2", strOf "t3", strOf "t4", strOf "t5"] 2 =
      Except.ok ((chunks 2 [strOf "t1", strOf "t2", strOf "t3", strOf "t4", strOf "t5"]).map
        fun w => w.map (outcomeOf oracleAllError)) ∧
    (chunks 2 [strOf "t1", strOf "t2", strOf "t3", strOf "t4", strOf "t5"]).map List.length
        = [2, 2, 1] ∧
    ((chunks 2 [strOf "t1", strOf "t2", strOf "t3", strOf "t4", strOf "t5"]).map
        fun w => w.map (outcomeOf oracleAllError)).flatten.length = 5 := by
  have h := C2_windowing 2 [strOf "t1", strOf "t2", strOf "t3", strOf "t4", strOf "t5"]
    oracleAllError (by omega) (by decide)
  exact ⟨h.2.2.2.1, by decide, h.2.2.2.2⟩

/-- C2 (counterexample): one target whose crawl succeeds but whose URL lacks
the `q=hr+...+linkedin` pattern makes the success branch's unguarded
`.group(1)` raise: the batch aborts and produces no per-item outcome at all,
so the number of outcomes (none) does not equal the number of targets (1). -/
theorem C2_counterexample_abort :
    crawl_parallel oracleAlwaysOk [strOf "https://a"] 2 =
      Except.error (strOf "AttributeError") ∧
    ∀ outs : List (List Outcome),
      crawl_parallel oracleAlwaysOk [strOf "https://a"] 2 ≠ Except.ok outs := by
  have h1 : crawl_parallel oracleAlwaysOk [strOf "https://a"] 2 =
      Except.error (strOf "AttributeError") := rfl
  refine ⟨h1, fun outs hok => ?_⟩
  rw [h1] at hok
  exact Except.noConfusion hok

/-- C4 (amended): an exception raised while crawling one item is caught (via
`gather(..., return_exceptions=True)`) and recorded as that item's errored
disposition, with every sibling in the window still receiving its own
disposition and the window completing — provided every successfully crawled
item's URL contains the `q=hr+...+linkedin` pattern; an exception in the
success branch's query re-parse is not caught and aborts the batch. -/
theorem C4_navigation_errors_downgraded (oracle : Str → Except Str CrawlResult) (w : List Str)
    (hq : ∀ u ∈ w, successfulCrawl oracle u = true → (searchQuery u).isSome) :
    handleWindow oracle w = Except.ok (w.map (outcomeOf oracle)) ∧
    (w.map (outcomeOf oracle)).length = w.length ∧
    (∀ u ∈ w, ∀ e, oracle u = Except.error e → outcomeOf oracle u = Outcome.errored e) := by
  refine ⟨handleWindow_ok oracle w hq, by simp, ?_⟩
  intro u _ e he
  unfold outcomeOf
  rw [he]

/-- C4 (witness): in a window of two items whose first crawl raises a
timeout, the window completes with an errored outcome for the first item and
the failure outcome for its sibling. -/
theorem C4_navigation_errors_downgraded_witness :
    handleWindow oracleOneTimeout
        [strOf "https://www.bing.com/search?q=hr+amazon+linkedin", strOf "https://other"] =
      Except.ok [Outcome.errored (strOf "TimeoutError"), Outcome.failed] ∧
    outcomeOf oracleOneTimeout (strOf "https://www.bing.com/search?q=hr+amazon+linkedin") =
      Outcome.errored (strOf "TimeoutError") := by
  have h := C4_navigation_errors_downgraded oracleOneTimeout
    [strOf "https://www.bing.com/search?q=hr+amazon+linkedin", strOf "https://other"]
    (by decide)
  exact ⟨h.1, h.2.2 _ (List.mem_cons_self _ _) _ rfl⟩

/-- C4 (counterexample): a per-item exception in the success branch (the
query re-parse of a crawled URL without the expected pattern) is not caught:
the window aborts, the sibling item never receives an outcome, and the whole
batch raises instead of completing. -/
theorem C4_counterexample_sibling_lost :
    handleWindow oracleAlwaysOk [strOf "https://a", strOf "https://b"] =
      Except.error (strOf "AttributeError") ∧
    crawl_parallel oracleAlwaysOk [strOf "https://a", strOf "https://b"] 2 =
      Except.error (strOf "AttributeError") ∧
    ∀ outs : List Outcome,
      handleWindow oracleAlwaysOk [strOf "https://a", strOf "https://b"] ≠ Except.ok outs := by
  have h1 : handleWindow oracleAlwaysOk [strOf "https://a", strOf "https://b"] =
      Except.error (strOf "AttributeError") := rfl
  refine ⟨h1, rfl, fun outs hok => ?_⟩
  rw [h1] at hok
  exact Except.noConfusion hok

theorem expectLit_append (lit rest : Str) : expectLit lit (lit ++ rest) = some rest := by
  unfold expectLit
  rw [if_pos (List.isPrefixOf_iff_prefix.mpr (List.prefix_append lit rest)), List.drop_left]

theorem fromHex_hexDigit : ∀ k, k < 16 → fromHexDigit (hexDigitChar k) = some k := by decide

theorem parse4Hex_hex4 (n : Nat) (hn : n < 65536) (rest : Str) :
    parse4Hex (hex4 n ++ rest) = some (n, rest) := by
  show parse4Hex (hexDigitChar (n / 4096 % 16) :: hexDigitChar (n / 256 % 16) ::
    hexDigitChar (n / 16 % 16) :: hexDigitChar (n % 16) :: rest) = some (n, rest)
  rw [parse4Hex, fromHex_hexDigit _ (by omega), fromHex_hexDigit _ (by omega),
    fromHex_hexDigit _ (by omega), fromHex_hexDigit _ (by omega)]
  show some ((((n / 4096 % 16 * 16 + n / 256 % 16) * 16 + n / 16 % 16) * 16 + n % 16), rest)
    = some (n, rest)
  have : ((n / 4096 % 16 * 16 + n / 256 % 16) * 16 + n / 16 % 16) * 16 + n % 16 = n := by
    omega
  rw [this]

theorem char_toNat_valid (c : Char) :
    c.toNat < 1114112 ∧ (c.toNat < 55296 ∨ 57344 ≤ c.toNat) := by
  have h := c.valid
  unfold UInt32.isValidChar Nat.isValidChar at h
  have e : c.toNat = c.val.toNat := rfl
  rw [e]
  omega

theorem parseUHex_eq_val {s : Str} {a : Nat} {b : Str} (h : parse4Hex s = some (a, b)) :
    parseUHex s = parseUHexVal a b := by
  unfold parseUHex
  rw [h]

theorem parseUHexVal_high {a : Nat} (h1 : 55296 ≤ a) (h2 : a < 56320) (b : Str) :
    parseUHexVal a b = parseLowSurrogate a b := by
  unfold parseUHexVal
  rw [if_pos ⟨h1, h2⟩]

theorem parseUHexVal_scalar {a : Nat} (h : a < 55296 ∨ 57344 ≤ a) (b : Str) :
    parseUHexVal a b = some (Char.ofNat a, b) := by
  unfold parseUHexVal
  rw [if_neg (by omega), if_neg (by omega)]

theorem parseUHex_bmp {n : Nat} (hn : n < 65536) (hsur : n < 55296 ∨ 57344 ≤ n) (X : Str) :
    parseUHex (hex4 n ++ X) = some (Char.ofNat n, X) := by
  rw [parseUHex_eq_val (parse4Hex_hex4 n hn X), parseUHexVal_scalar hsur X]

theorem parseLowSurrogate_pair (hi lo : Nat) (hlo1 : 56320 ≤ lo) (hlo2 : lo < 57344) (X : Str) :
    parseLowSurrogate hi ('\\' :: 'u' :: (hex4 lo ++ X)) =
      some (Char.ofNat (65536 + (hi - 55296) * 1024 + (lo - 56320)), X) := by
  rw [parseLowSurrogate, parse4Hex_hex4 lo (by omega) X]
  show (if 56320 ≤ lo ∧ lo < 57344 then
      some (Char.ofNat (65536 + (hi - 55296) * 1024 + (lo - 56320)), X) else none) =
    some (Char.ofNat (65536 + (hi - 55296) * 1024 + (lo - 56320)), X)
  rw [if_pos ⟨hlo1, hlo2⟩]

theorem parseUHex_astral {n : Nat} (hn1 : 65536 ≤ n) (hn2 : n < 1114112) (X : Str) :
    parseUHex (hex4 (55296 + (n - 65536) / 1024) ++
      ('\\' :: 'u' :: (hex4 (56320 + (n - 65536) % 1024) ++ X))) =
      some (Char.ofNat n, X) := by
  rw [parseUHex_eq_val (parse4Hex_hex4 _ (by omega) _),
    parseUHexVal_high (by omega) (by omega) _,
    parseLowSurrogate_pair _ _ (by omega) (by omega) X]
  have harith : 65536 + (55296 + (n - 65536) / 1024 - 55296) * 1024 +
      (56320 + (n - 65536) % 1024 - 56320) = n := by omega
  rw [harith]

theorem parseStrBody_esc_step (fuel : Nat) (e d : Char) (he : e ≠ 'u')
    (hd : escDecode e = some d) (X : Str) :
    parseStrBody (fuel + 1) ('\\' :: e :: X) =
      (parseStrBody fuel X).map fun p => (d :: p.1, p.2) := by
  rw [parseStrBody, if_neg (by decide), if_pos rfl]
  have hpe : parseEscape (e :: X) = some (d, X) := by
    rw [parseEscape, if_neg he, hd]
  rw [hpe]

theorem parseStrBody_u_step (fuel n : Nat) (hn : n < 65536) (hsur : n < 55296 ∨ 57344 ≤ n)
    (X : Str) :
    parseStrBody (fuel + 1) ('\\' :: 'u' :: (hex4 n ++ X)) =
      (parseStrBody fuel X).map fun p => (Char.ofNat n :: p.1, p.2) := by
  rw [parseStrBody, if_neg (by decide), if_pos rfl]
  have hpe : parseEscape ('u' :: (hex4 n ++ X)) = some (Char.ofNat n, X) := by
    rw [parseEscape, if_pos rfl]
    exact parseUHex_bmp hn hsur X
  rw [hpe]

theorem parseStrBody_u_pair_step (fuel n : Nat) (hn1 : 65536 ≤ n) (hn2 : n < 1114112)
    (X : Str) :
    parseStrBody (fuel + 1)
      ('\\' :: 'u' :: (hex4 (55296 + (n - 65536) / 1024) ++
        ('\\' :: 'u' :: (hex4 (56320 + (n - 65536) % 1024) ++ X)))) =
      (parseStrBody fuel X).map fun p => (Char.ofNat n :: p.1, p.2) := by
  rw [parseStrBody, if_neg (by decide), if_pos rfl]
  have hpe : parseEscape ('u' :: (hex4 (55296 + (n - 65536) / 1024) ++
      ('\\' :: 'u' :: (hex4 (56320 + (n - 65536) % 1024) ++ X)))) = some (Char.ofNat n, X) := by
    rw [parseEscape, if_pos rfl]
    exact parseUHex_astral hn1 hn2 X
  rw [hpe]

theorem parseStrBody_lit_step (fuel : Nat) (c : Char) (h1 : ¬c = '"') (h2 : ¬c = '\\')
    (X : Str) :
    parseStrBody (fuel + 1) (c :: X) =
      (parseStrBody fuel X).map fun p => (c :: p.1, p.2) := by
  rw [parseStrBody, if_neg h1, if_neg h2]

theorem parseStrBody_encode (v : Str) : ∀ (fuel : Nat) (rest : Str), v.length < fuel →
    parseStrBody fuel (encodeStrBody v ++ '"' :: rest) = some (v, rest) := by
  induction v with
  | nil =>
    intro fuel rest hf
    cases fuel with
    | zero => omega
    | succ fuel => rfl
  | cons c cs ih =>
    intro fuel rest hf
    cases fuel with
    | zero => omega
    | succ fuel =>
      have hf' : cs.length < fuel := by
        simp only [List.length_cons] at hf
        omega
      have henc : encodeStrBody (c :: cs) = encodeChar c ++ encodeStrBody cs := by
        simp [encodeStrBody]
      rw [henc, List.append_assoc]
      have hih := ih fuel rest hf'
      by_cases h1 : c = '"'
      · subst h1
        rw [show encodeChar '"' = ['\\', '"'] from rfl]
        simp only [List.cons_append, List.nil_append]
        rw [parseStrBody_esc_step fuel '"' '"' (by decide) (by decide) _, hih]
        rfl
      · by_cases h2 : c = '\\'
        · subst h2
          rw [show encodeChar '\\' = ['\\', '\\'] from rfl]
          simp only [List.cons_append, List.nil_append]
          rw [parseStrBody_esc_step fuel '\\' '\\' (by decide) (by decide) _, hih]
          rfl
        · by_cases h3 : c = Char.ofNat 10
          · subst h3
            rw [show encodeChar (Char.ofNat 10) = ['\\', 'n'] from rfl]
            simp only [List.cons_append, List.nil_append]
            rw [parseStrBody_esc_step fuel 'n' (Char.ofNat 10) (by decide) (by decide) _, hih]
            rfl
          · by_cases h4 : c = Char.ofNat 13
            · subst h4
              rw [show encodeChar (Char.ofNat 13) = ['\\', 'r'] from rfl]
              simp only [List.cons_append, List.nil_append]
              rw [parseStrBody_esc_step fuel 'r' (Char.ofNat 13) (by decide) (by decide) _, hih]
              rfl
            · by_cases h5 : c = Char.ofNat 9
              · subst h5
                rw [show encodeChar (Char.ofNat 9) = ['\\', 't'] from rfl]
                simp only [List.cons_append, List.nil_append]
                rw [parseStrBody_esc_step fuel 't' (Char.ofNat 9) (by decide) (by decide) _, hih]
                rfl
              · by_cases h6 : c = Char.ofNat 8
                · subst h6
                  rw [show encodeChar (Char.ofNat 8) = ['\\', 'b'] from rfl]
                  simp only [List.cons_append, List.nil_append]
                  rw [parseStrBody_esc_step fuel 'b' (Char.ofNat 8) (by decide) (by decide) _,
                    hih]
                  rfl
                · by_cases h7 : c = Char.ofNat 12
                  · subst h7
                    rw [show encodeChar (Char.ofNat 12) = ['\\', 'f'] from rfl]
                    simp only [List.cons_append, List.nil_append]
                    rw [parseStrBody_esc_step fuel 'f' (Char.ofNat 12) (by decide) (by decide) _,
                      hih]
                    rfl
                  · by_cases h8 : c.toNat < 32
                    · have he : encodeChar c = '\\' :: 'u' :: hex4 c.toNat := by
                        unfold encodeChar
                        rw [if_neg h1, if_neg h2, if_neg h3, if_neg h4, if_neg h5, if_neg h6,
                          if_neg h7, if_pos h8]
                      rw [he]
                      simp only [List.cons_append]
                      rw [parseStrBody_u_step fuel c.toNat (by omega) (Or.inl (by omega)) _, hih]
                      simp [Char.ofNat_toNat]
                    · by_cases h9 : c.toNat < 127
                      · have he : encodeChar c = [c] := by
                          unfold encodeChar
                          rw [if_neg h1, if_neg h2, if_neg h3, if_neg h4, if_neg h5, if_neg h6,
                            if_neg h7, if_neg h8, if_pos h9]
                        rw [he]
                        simp only [List.cons_append, List.nil_append]
                        rw [parseStrBody_lit_step fuel c h1 h2 _, hih]
                        rfl
                      · by_cases h10 : c.toNat < 65536
                        · have he : encodeChar c = '\\' :: 'u' :: hex4 c.toNat := by
                            unfold encodeChar
                            rw [if_neg h1, if_neg h2, if_neg h3, if_neg h4, if_neg h5, if_neg h6,
                              if_neg h7, if_neg h8, if_neg h9, if_pos h10]
                          rw [he]
                          simp only [List.cons_append]
                          rw [parseStrBody_u_step fuel c.toNat h10 (char_toNat_valid c).2 _, hih]
                          simp [Char.ofNat_toNat]
                        · have he : encodeChar c =
                              ('\\' :: 'u' :: hex4 (55296 + (c.toNat - 65536) / 1024)) ++
                                ('\\' :: 'u' :: hex4 (56320 + (c.toNat - 65536) % 1024)) := by
                            unfold encodeChar
                            rw [if_neg h1, if_neg h2, if_neg h3, if_neg h4, if_neg h5, if_neg h6,
                              if_neg h7, if_neg h8, if_neg h9, if_neg h10]
                          rw [he]
                          simp only [List.cons_append, List.append_assoc]
                          rw [parseStrBody_u_pair_step fuel c.toNat (by omega)
                            (char_toNat_valid c).1 _, hih]
                          simp [Char.ofNat_toNat]

set_option maxHeartbeats 1000000 in
theorem encodeChar_ne_nil (c : Char) : encodeChar c ≠ [] := by
  unfold encodeChar
  split_ifs <;> simp [hex4]

theorem encodeStrBody_length_ge (v : Str) : v.length ≤ (encodeStrBody v).length := by
  induction v with
  | nil => simp [encodeStrBody]
  | cons c cs ih =>
    have h1 : 1 ≤ (encodeChar c).length := by
      cases hc : encodeChar c with
      | nil => exact absurd hc (encodeChar_ne_nil c)
      | cons a as => simp
    have ih' : cs.length ≤ ((cs.map encodeChar).flatten).length := ih
    simp only [encodeStrBody, List.map_cons, List.flatten_cons, List.length_append,
      List.length_cons]
    omega

theorem parseStrTop_encodeStr (v rest : Str) :
    parseStrTop (encodeStr v ++ rest) = some (v, rest) := by
  have hshape : encodeStr v ++ rest = '"' :: (encodeStrBody v ++ '"' :: rest) := by
    unfold encodeStr
    simp
  rw [hshape, parseStrTop]
  apply parseStrBody_encode
  have h1 := encodeStrBody_length_ge v
  simp only [List.length_append, List.length_cons]
  omega

theorem digitChar_isDigit : ∀ k, k < 10 → (digitChar k).isDigit = true := by decide

theorem digitChar_toNat : ∀ k, k < 10 → (digitChar k).toNat = 48 + k := by decide

theorem digitsVal_append_digit (ds : Str) (c : Char) :
    digitsVal (ds ++ [c]) = digitsVal ds * 10 + (c.toNat - 48) := by
  unfold digitsVal
  rw [List.foldl_append]
  rfl

theorem encodeNatF_spec : ∀ (fuel n : Nat), n < 10 ^ (fuel + 1) →
    encodeNatF (fuel + 1) n ≠ [] ∧ (∀ c ∈ encodeNatF (fuel + 1) n, c.isDigit = true) ∧
      digitsVal (encodeNatF (fuel + 1) n) = n := by
  intro fuel
  induction fuel with
  | zero =>
    intro n hn
    have hn10 : n < 10 := by
      simpa using hn
    rw [encodeNatF, if_pos hn10]
    refine ⟨by simp, ?_, ?_⟩
    · intro d hd
      rw [List.mem_singleton] at hd
      subst hd
      exact digitChar_isDigit n hn10
    · show digitsVal ([] ++ [digitChar n]) = n
      rw [digitsVal_append_digit, digitChar_toNat n hn10]
      show 0 * 10 + (48 + n - 48) = n
      omega
  | succ fuel ih =>
    intro n hn
    by_cases hsmall : n < 10
    · rw [encodeNatF, if_pos hsmall]
      refine ⟨by simp, ?_, ?_⟩
      · intro d hd
        rw [List.mem_singleton] at hd
        subst hd
        exact digitChar_isDigit n hsmall
      · show digitsVal ([] ++ [digitChar n]) = n
        rw [digitsVal_append_digit, digitChar_toNat n hsmall]
        show 0 * 10 + (48 + n - 48) = n
        omega
    · rw [encodeNatF, if_neg hsmall]
      have hdiv : n / 10 < 10 ^ (fuel + 1) := by
        have hp : (10 : Nat) ^ (fuel + 1 + 1) = 10 ^ (fuel + 1) * 10 := by
          rw [pow_succ]
        rw [Nat.div_lt_iff_lt_mul (by omega)]
        rw [hp] at hn
        exact hn
      obtain ⟨hne, hdig, hval⟩ := ih (n / 10) hdiv
      refine ⟨by simp, ?_, ?_⟩
      · intro d hd
        rcases List.mem_append.mp hd with hd | hd
        · exact hdig d hd
        · rw [List.mem_singleton] at hd
          subst hd
          exact digitChar_isDigit _ (by omega)
      · rw [digitsVal_append_digit, hval, digitChar_toNat _ (by omega)]
        omega

theorem takeWhile_digits_append {ds : Str} (hds : ∀ c ∈ ds, c.isDigit = true) {rest : Str}
    (hrest : ∀ d, rest.head? = some d → d.isDigit = false) :
    (ds ++ rest).takeWhile Char.isDigit = ds ∧ (ds ++ rest).dropWhile Char.isDigit = rest := by
  induction ds with
  | nil =>
    simp only [List.nil_append]
    cases rest with
    | nil => exact ⟨rfl, rfl⟩
    | cons r rs =>
      have hr := hrest r rfl
      rw [List.takeWhile_cons, List.dropWhile_cons]
      simp [hr]
  | cons d ds ih =>
    have hd : d.isDigit = true := hds d (List.mem_cons_self _ _)
    obtain ⟨iht, ihd⟩ := ih (fun c hc => hds c (List.mem_cons_of_mem _ hc))
    simp only [List.cons_append, List.takeWhile_cons, List.dropWhile_cons, hd]
    simp [iht, ihd]

theorem parseNatPart_encodeNat (n : Nat) (rest : Str)
    (hrest : ∀ d, rest.head? = some d → d.isDigit = false) :
    parseNatPart (encodeNat n ++ rest) = some (n, rest) := by
  have hpow : n < 10 ^ (n + 1) := by
    have h1 : n < 10 ^ n := Nat.lt_pow_self (by omega) n
    have h2 : (10 : Nat) ^ n ≤ 10 ^ (n + 1) := Nat.pow_le_pow_right (by omega) (Nat.le_succ n)
    omega
  obtain ⟨hne, hdig, hval⟩ := encodeNatF_spec n n hpow
  have hne' : encodeNat n ≠ [] := hne
  have hdig' : ∀ c ∈ encodeNat n, c.isDigit = true := hdig
  have hval' : digitsVal (encodeNat n) = n := hval
  unfold parseNatPart
  rw [List.span_eq_take_drop]
  obtain ⟨ht, hd⟩ := takeWhile_digits_append hdig' hrest
  show (if ((encodeNat n ++ rest).takeWhile Char.isDigit).isEmpty = true then none
    else some (digitsVal ((encodeNat n ++ rest).takeWhile Char.isDigit),
      (encodeNat n ++ rest).dropWhile Char.isDigit)) = some (n, rest)
  rw [ht, hd, if_neg (by simpa [List.isEmpty_iff] using hne'), hval']

theorem parseNum_encodeInt (i : Int) (rest : Str)
    (hrest : ∀ d, rest.head? = some d → d.isDigit = false) :
    parseNum (encodeInt i ++ rest) = some (i, rest) := by
  by_cases hneg : i < 0
  · have he : encodeInt i = '-' :: encodeNat i.natAbs := by
      unfold encodeInt
      rw [if_pos hneg]
    rw [he, List.cons_append, parseNum, if_pos rfl,
      parseNatPart_encodeNat i.natAbs rest hrest]
    have hi : -((i.natAbs : Int)) = i := by omega
    show some (-((i.natAbs : Int)), rest) = some (i, rest)
    rw [hi]
  · have he : encodeInt i = encodeNat i.natAbs := by
      unfold encodeInt
      rw [if_neg hneg]
    have hpow : i.natAbs < 10 ^ (i.natAbs + 1) := by
      have h1 : i.natAbs < 10 ^ i.natAbs := Nat.lt_pow_self (by omega) _
      have h2 : (10 : Nat) ^ i.natAbs ≤ 10 ^ (i.natAbs + 1) :=
        Nat.pow_le_pow_right (by omega) (Nat.le_succ _)
      omega
    obtain ⟨hne, hdig, _⟩ := encodeNatF_spec i.natAbs i.natAbs hpow
    have hne' : encodeNat i.natAbs ≠ [] := hne
    have hdig' : ∀ c ∈ encodeNat i.natAbs, c.isDigit = true := hdig
    cases hcase : encodeNat i.natAbs with
    | nil => exact absurd hcase hne'
    | cons d ds =>
      have hd : d.isDigit = true := by
        apply hdig'
        rw [hcase]
        exact List.mem_cons_self _ _
      have hdm : ¬d = '-' := by
        intro hc
        subst hc
        simp at hd
      rw [he, hcase, List.cons_append, parseNum, if_neg hdm, ← List.cons_append, ← hcase,
        parseNatPart_encodeNat i.natAbs rest hrest]
      have hi : ((i.natAbs : Int)) = i := by omega
      show some ((i.natAbs : Int), rest) = some (i, rest)
      rw [hi]

theorem parseBool_encodeBool (b : Bool) (rest : Str) :
    parseBool (encodeBool b ++ rest) = some (b, rest) := by
  cases b with
  | true =>
    show parseBool (strOf "true" ++ rest) = some (true, rest)
    unfold parseBool
    rw [if_pos (List.isPrefixOf_iff_prefix.mpr (List.prefix_append _ rest))]
    rw [show (4 : Nat) = (strOf "true").length from rfl, List.drop_left]
  | false =>
    show parseBool (strOf "false" ++ rest) = some (false, rest)
    unfold parseBool
    rw [if_neg ?_, if_pos (List.isPrefixOf_iff_prefix.mpr (List.prefix_append _ rest))]
    · rw [show (5 : Nat) = (strOf "false").length from rfl, List.drop_left]
    · intro hc
      have hfalse : (false : Bool) = true := hc
      exact Bool.noConfusion hfalse

theorem parseStrField_round (k : String) (v rest : Str) :
    parseStrField k (keyLit k ++ (encodeStr v ++ (commaSp ++ rest))) = some (v, rest) := by
  unfold parseStrField
  rw [expectLit_append]
  simp only [Option.some_bind]
  rw [parseStrTop_encodeStr]
  simp only [Option.some_bind]
  rw [expectLit_append]
  simp only [Option.map_some']

theorem commaSp_head_not_digit (rest : Str) :
    ∀ d, ((commaSp ++ rest).head? = some d) → d.isDigit = false := by
  intro d hd
  have hh : (commaSp ++ rest).head? = some ',' := rfl
  rw [hh] at hd
  injection hd with hd
  subst hd
  decide

theorem parseIntField_round (k : String) (i : Int) (rest : Str) :
    parseIntField k (keyLit k ++ (encodeInt i ++ (commaSp ++ rest))) = some (i, rest) := by
  unfold parseIntField
  rw [expectLit_append]
  simp only [Option.some_bind]
  rw [parseNum_encodeInt i (commaSp ++ rest) (commaSp_head_not_digit rest)]
  simp only [Option.some_bind]
  rw [expectLit_append]
  simp only [Option.map_some']

theorem parseBoolField_round (k : String) (b : Bool) (after rest : Str) :
    parseBoolField k after (keyLit k ++ (encodeBool b ++ (after ++ rest))) = some (b, rest) := by
  unfold parseBoolField
  rw [expectLit_append]
  simp only [Option.some_bind]
  rw [parseBool_encodeBool]
  simp only [Option.some_bind]
  rw [expectLit_append]
  simp only [Option.map_some']

theorem parseCookie_dump (ck : Cookie) (rest : Str) :
    parseCookie (dumpCookie ck ++ rest) = some (ck, rest) := by
  unfold parseCookie dumpCookie
  simp only [List.append_assoc]
  rw [expectLit_append]
  simp only [Option.some_bind]
  rw [parseStrField_round]
  simp only [Option.some_bind]
  rw [parseStrField_round]
  simp only [Option.some_bind]
  rw [parseStrField_round]
  simp only [Option.some_bind]
  rw [parseStrField_round]
  simp only [Option.some_bind]
  rw [parseIntField_round]
  simp only [Option.some_bind]
  rw [parseBoolField_round]
  simp only [Option.some_bind]
  rw [parseBoolField_round "secure" ck.secure [Char.ofNat 125] rest]
  simp only [Option.map_some']

theorem dumpCookie_length_pos (ck : Cookie) : 1 ≤ (dumpCookie ck).length := by
  unfold dumpCookie
  simp

theorem itemsStr_length_ge (cs : List Cookie) :
    cs.length ≤ (joinSep commaSp (cs.map dumpCookie) ++ [']']).length := by
  induction cs with
  | nil => simp
  | cons c cs ih =>
    cases cs with
    | nil =>
      have h1 := dumpCookie_length_pos c
      have hj : joinSep commaSp ([c].map dumpCookie) = dumpCookie c := rfl
      rw [hj]
      simp only [List.length_append, List.length_cons, List.length_nil]
      omega
    | cons c2 cs2 =>
      have h1 := dumpCookie_length_pos c
      have hjoin : joinSep commaSp ((c :: c2 :: cs2).map dumpCookie) =
          dumpCookie c ++ (commaSp ++ joinSep commaSp ((c2 :: cs2).map dumpCookie)) := rfl
      rw [hjoin]
      simp only [List.length_append, List.length_cons] at ih ⊢
      have h2 : commaSp.length = 2 := rfl
      omega

theorem parseItems_round : ∀ (cs : List Cookie), cs ≠ [] → ∀ (fuel : Nat), cs.length ≤ fuel →
    parseItems fuel (joinSep commaSp (cs.map dumpCookie) ++ [']']) = some cs := by
  intro cs
  induction cs with
  | nil => intro h; exact absurd rfl h
  | cons c cs ih =>
    intro _ fuel hfuel
    cases fuel with
    | zero => simp at hfuel
    | succ fuel =>
      cases cs with
      | nil =>
        rw [show joinSep commaSp ([c].map dumpCookie) = dumpCookie c from rfl]
        rw [parseItems, parseCookie_dump c [']']]
        rfl
      | cons c2 cs2 =>
        have hjoin : joinSep commaSp ((c :: c2 :: cs2).map dumpCookie) =
            dumpCookie c ++ (commaSp ++ joinSep commaSp ((c2 :: cs2).map dumpCookie)) := rfl
        rw [hjoin, List.append_assoc, List.append_assoc]
        rw [parseItems, parseCookie_dump c
          (commaSp ++ (joinSep commaSp ((c2 :: cs2).map dumpCookie) ++ [']']))]
        simp only [Option.some_bind]
        show (parseItems fuel (joinSep commaSp ((c2 :: cs2).map dumpCookie) ++ [']'])).map
          (c :: ·) = some (c :: c2 :: cs2)
        rw [ih (by simp) fuel (by simp only [List.length_cons] at hfuel ⊢; omega)]
        rfl

theorem parseCookies_dump (cs : List Cookie) : parseCookies (dumpCookies cs) = some cs := by
  cases cs with
  | nil => rfl
  | cons c cs2 =>
    have hd : dumpCookies (c :: cs2) =
        '[' :: (joinSep commaSp ((c :: cs2).map dumpCookie) ++ [']']) := rfl
    rw [hd, parseCookies]
    rw [if_neg ?_]
    · exact parseItems_round (c :: cs2) (by simp) _ (itemsStr_length_ge (c :: cs2))
    · intro hc
      have hjoin : ∃ t, joinSep commaSp ((c :: cs2).map dumpCookie) = dumpCookie c ++ t := by
        cases cs2 with
        | nil => exact ⟨[], by simp [joinSep]⟩
        | cons c3 cs3 => exact ⟨commaSp ++ joinSep commaSp ((c3 :: cs3).map dumpCookie), rfl⟩
      obtain ⟨t, ht⟩ := hjoin
      rw [ht] at hc
      have hlen := congrArg List.length hc
      have h1 := dumpCookie_length_pos c
      simp only [List.length_append, List.length_singleton] at hlen
      omega

/-- C7: a save/load round-trip: for every storable credential (a list of
cookie records) and every prior state of the cookie file, `save_cookies`
followed by `load_cookies` recovers a value equal to the credential — the
`json.dump` text written by the save is parsed back to the same cookie
list by `json.load`. -/
theorem C7_save_load_roundtrip :
    ∀ (cs : List Cookie) (fs : Option Str),
      load_cookies (save_cookies cs fs) = some cs := by
  intro cs fs
  show (some (dumpCookies cs)).bind parseCookies = some cs
  rw [Option.some_bind, parseCookies_dump]
